import Mathlib

/-!
A shallow embedding of the mini-sk combinator-graph reduction engine
(`mini-sk.c`, portable build: `apps`-array indexing, `MAX_APPS = 3072`,
`MAX_STACK = 512`, no `TINY_VERSION`).

An atom is a 16-bit value; the high bit distinguishes node references from
literals, and all node-field macros mask the index with `0x7fff`.  We embed
atoms as a sum type carrying the 15-bit payload, and the pool as total maps
from indices to fields.  The heap-mutating C functions become state-passing
Lean functions; the recursive ones (`free_app_all`, the reducer loop, the
I-chain walk) take an explicit fuel argument and return an error when it runs
out, since on an arbitrary (possibly corrupted) heap they need not terminate.
The three fatal conditions of the engine (pool exhaustion in `alloc_app`,
spine-stack overflow in `reduce`) are modelled as distinguished error values.
`putchar` appends to an output list carried in the state; `getchar` consumes
an input list.  The `reductions` and `max_apps` statistics counters are not
modelled; `current_apps` is.
-/

namespace MiniSK

def MAX_APPS : Nat := 3072

def MAX_STACK : Nat := 512

def LIT_I : Nat := 0x0100

def LIT_K : Nat := 0x0201

def LIT_S : Nat := 0x0302

def LIT_B : Nat := 0x0303

def LIT_C : Nat := 0x0304

def LIT_Y : Nat := 0x0105

def LIT_P : Nat := 0x0206

def LIT_pl : Nat := 0x0307

def LIT_mi : Nat := 0x0308

def LIT_tm : Nat := 0x0309

def LIT_dv : Nat := 0x030a

def LIT_F : Nat := 0x020b

def LIT_J : Nat := 0x020c

def LIT_eq : Nat := 0x030d

def LIT_lt : Nat := 0x030e

def LIT_G : Nat := 0x010f

/-- An atom: either a literal (combinator code or raw datum) or a reference
to an app node.  In C both live in one `uint16_t` with the high bit as tag. -/
inductive Atom where
  | lit (l : Nat)
  | node (n : Nat)
deriving DecidableEq

/-- `IS_LIT`. -/
def Atom.isLit : Atom → Bool
  | .lit _ => true
  | .node _ => false

/-- The pool index used by the `NODE_FUNC`/`NODE_ARG`/`NODE_REFCOUNT` macros,
which mask the atom with `0x7fff` regardless of its tag. -/
def Atom.idx : Atom → Nat
  | .lit l => l % 0x8000
  | .node n => n % 0x8000

/-- `ATOM_TO_LIT` (only meaningful after an `IS_LIT` test). -/
def atomLit : Atom → Nat
  | .lit l => l
  | .node n => n

/-- `LIT_REQARGS`: the arity byte of a literal. -/
def litReqargs (l : Nat) : Nat := l / 256 % 256

/-- `LIT_SUBTYPE`: the low byte of a literal, an index into the rule table. -/
def litSubtype (l : Nat) : Nat := l % 256

/-- The engine's mutable state: the `apps` pool (three field maps), the
free-list head `app_freelist`, the live-node counter `current_apps`, and the
I/O streams. -/
structure SKState where
  func : Nat → Atom
  arg : Nat → Atom
  refcount : Nat → Nat
  freelist : Atom
  currentApps : Nat
  output : List Nat
  input : List Nat

def SKState.setFunc (s : SKState) (n : Nat) (v : Atom) : SKState :=
  { s with func := fun i => if i = n then v else s.func i }

def SKState.setArg (s : SKState) (n : Nat) (v : Atom) : SKState :=
  { s with arg := fun i => if i = n then v else s.arg i }

def SKState.setRc (s : SKState) (n : Nat) (v : Nat) : SKState :=
  { s with refcount := fun i => if i = n then v else s.refcount i }

/-- The fatal/abnormal outcomes of a run: `outOfAppSpace` is the
`"out of app space"` + `exit(2)` path of `alloc_app`; `stackOverflow` is the
spine-stack bound (`assert(rs_top_ptr >= red_stack)`) in `reduce`;
`outOfFuel` reports that the fuel bound was reached.  `badSubtype` models a
rule-table index outside the 16 reducers (unreachable for parsed programs). -/
inductive RunErr where
  | outOfFuel
  | outOfAppSpace
  | stackOverflow
  | badSubtype
deriving DecidableEq

/-- `alloc_app`: pop the free-list head, write the two children, set
`refcount = 1`, bump `current_apps`.  Exhaustion (`free_head` = the sentinel
index `MAX_APPS`) is fatal. -/
def alloc_app (s : SKState) (f a : Atom) : Except RunErr (Atom × SKState) :=
  let nxt := s.freelist
  if nxt = Atom.node MAX_APPS then .error .outOfAppSpace
  else .ok (nxt,
    { s with
      freelist := s.func nxt.idx,
      func := fun i => if i = nxt.idx then f else s.func i,
      arg := fun i => if i = nxt.idx then a else s.arg i,
      refcount := fun i => if i = nxt.idx then 1 else s.refcount i,
      currentApps := s.currentApps + 1 })

/-- `free_app`: push the node back on the free-list through its `func`
field; decrement the live counter.  Children are not touched. -/
def free_app (s : SKState) (a : Atom) : SKState :=
  { s with
    func := fun i => if i = a.idx then s.freelist else s.func i,
    freelist := a,
    currentApps := s.currentApps - 1 }

/-- `free_app_all` (the spec's `release`): literals are a no-op returning
`false`; otherwise decrement the (16-bit) refcount, and when it reaches zero
release `arg`, then `func`, then `free_app` the node, returning `true`. -/
def free_app_all (fuel : Nat) : SKState → Atom → Except RunErr (Bool × SKState) :=
  @Nat.rec (fun _ => SKState → Atom → Except RunErr (Bool × SKState))
    (fun _ _ => .error .outOfFuel)
    (fun _ ih s a =>
      if a.isLit then .ok (false, s)
      else
        let rc := (s.refcount a.idx + 65535) % 65536
        let s₁ := s.setRc a.idx rc
        if rc ≠ 0 then .ok (false, s₁)
        else do
          let (_, s₂) ← ih s₁ (s₁.arg a.idx)
          let (_, s₃) ← ih s₂ (s₂.func a.idx)
          .ok (true, free_app s₃ a))
    fuel

/-- `copy_atom` (the spec's `retain`): a no-op on literals, otherwise
increment the node's refcount; returns the atom unchanged. -/
def copy_atom (s : SKState) (a : Atom) : Atom × SKState :=
  if a.isLit then (a, s)
  else (a, s.setRc a.idx ((s.refcount a.idx + 1) % 65536))

/-- `replace`: release one reference to `orig`; if that freed it, return
`reduced` directly, otherwise retain `reduced`, release the old `func` and
`arg` children, and overwrite `orig` to the indirection `(I reduced)`. -/
def replace (fuel : Nat) (s : SKState) (orig reduced : Atom) :
    Except RunErr (Atom × SKState) := do
  let (freed, s₁) ← free_app_all fuel s orig
  if freed then .ok (reduced, s₁)
  else
    let (_, s₂) := copy_atom s₁ reduced
    let (_, s₃) ← free_app_all fuel s₂ (s₂.func orig.idx)
    let (_, s₄) ← free_app_all fuel s₃ (s₃.arg orig.idx)
    .ok (reduced,
      { s₄ with
        func := fun i => if i = orig.idx then Atom.lit LIT_I else s₄.func i,
        arg := fun i => if i = orig.idx then reduced else s₄.arg i })

/-- `rs_top_ptr[i]` as seen by a rule: the `i`-th entry of the spine stack,
counted from the most recently pushed (the innermost application). -/
def rsTop (stack : List Atom) (i : Nat) : Atom := stack.getD i (Atom.lit 0)

/-- The type of a reduction entry point handed to the rules that reduce
sub-terms (`red_putchar`, `eval_two_lits`). -/
abbrev ReduceFn := SKState → Atom → Except RunErr (Atom × SKState)

/-- `red_ident`: `I x → x`. -/
def red_ident (fuel : Nat) (curr : Atom) (s : SKState) :
    Except RunErr (Atom × SKState) :=
  let (x, s₁) := copy_atom s (s.arg curr.idx)
  replace fuel s₁ curr x

/-- `red_const`: `K x y → x` (`x` is the arg of `rs_top_ptr[0]`). -/
def red_const (fuel : Nat) (stack : List Atom) (curr : Atom) (s : SKState) :
    Except RunErr (Atom × SKState) :=
  let (x, s₁) := copy_atom s (s.arg (rsTop stack 0).idx)
  replace fuel s₁ curr x

/-- `red_false`: `F x y → y` (`y` is the arg of `curr`). -/
def red_false (fuel : Nat) (curr : Atom) (s : SKState) :
    Except RunErr (Atom × SKState) :=
  let (y, s₁) := copy_atom s (s.arg curr.idx)
  replace fuel s₁ curr y

/-- `red_jump`: `J x y → (y x)`. -/
def red_jump (fuel : Nat) (stack : List Atom) (curr : Atom) (s : SKState) :
    Except RunErr (Atom × SKState) := do
  let (y, s₁) := copy_atom s (s.arg curr.idx)
  let (x, s₂) := copy_atom s₁ (s₁.arg (rsTop stack 0).idx)
  let (yx, s₃) ← alloc_app s₂ y x
  replace fuel s₃ curr yx

/-- `red_fusion`: `S f g x → ((f x) (g x))` where `f` is the arg of
`rs_top_ptr[0]`, `g` of `rs_top_ptr[1]`, and `x` of `curr`. -/
def red_fusion (fuel : Nat) (stack : List Atom) (curr : Atom) (s : SKState) :
    Except RunErr (Atom × SKState) := do
  let (f₁, s₁) := copy_atom s (s.arg (rsTop stack 0).idx)
  let (x₁, s₂) := copy_atom s₁ (s₁.arg curr.idx)
  let (fx, s₃) ← alloc_app s₂ f₁ x₁
  let (g₁, s₄) := copy_atom s₃ (s₃.arg (rsTop stack 1).idx)
  let (x₂, s₅) := copy_atom s₄ (s₄.arg curr.idx)
  let (gx, s₆) ← alloc_app s₅ g₁ x₂
  let (fgx, s₇) ← alloc_app s₆ fx gx
  replace fuel s₇ curr fgx

/-- `red_compose`: `B f g x → (f (g x))`. -/
def red_compose (fuel : Nat) (stack : List Atom) (curr : Atom) (s : SKState) :
    Except RunErr (Atom × SKState) := do
  let (f₁, s₁) := copy_atom s (s.arg (rsTop stack 0).idx)
  let (g₁, s₂) := copy_atom s₁ (s₁.arg (rsTop stack 1).idx)
  let (x₁, s₃) := copy_atom s₂ (s₂.arg curr.idx)
  let (gx, s₄) ← alloc_app s₃ g₁ x₁
  let (fgx, s₅) ← alloc_app s₄ f₁ gx
  replace fuel s₅ curr fgx

/-- `red_flip`: `C f y x → ((f x) y)`. -/
def red_flip (fuel : Nat) (stack : List Atom) (curr : Atom) (s : SKState) :
    Except RunErr (Atom × SKState) := do
  let (f₁, s₁) := copy_atom s (s.arg (rsTop stack 0).idx)
  let (x₁, s₂) := copy_atom s₁ (s₁.arg curr.idx)
  let (fy, s₃) ← alloc_app s₂ f₁ x₁
  let (y₁, s₄) := copy_atom s₃ (s₃.arg (rsTop stack 1).idx)
  let (fyx, s₅) ← alloc_app s₄ fy y₁
  replace fuel s₅ curr fyx

/-- `red_y`: `Y f → (f curr)`, sharing `curr` itself as the new node's `arg`
without `replace` and without retaining `curr`. -/
def red_y (curr : Atom) (s : SKState) : Except RunErr (Atom × SKState) :=
  let (f₁, s₁) := copy_atom s (s.arg curr.idx)
  alloc_app s₁ f₁ curr

/-- `red_putchar`: reduce `curr`'s arg in place, emit its low byte (or `'*'`
= 42 when it is not a literal), and continue with the retained arg of
`rs_top_ptr[0]`. -/
def red_putchar (reduceFn : ReduceFn) (fuel : Nat) (stack : List Atom)
    (curr : Atom) (s : SKState) : Except RunErr (Atom × SKState) := do
  let (reduced, s₁) ← reduceFn s (s.arg curr.idx)
  let s₂ := s₁.setArg curr.idx reduced
  let s₃ := { s₂ with
    output := s₂.output ++ [if reduced.isLit then atomLit reduced % 256 else 42] }
  let (k, s₄) := copy_atom s₃ (s₃.arg (rsTop stack 0).idx)
  replace fuel s₄ curr k

/-- `red_getchar`: `G k → (k c)` where `c` is the next input character
(end of input yields the C expression `LIT_TO_ATOM(-1)`, the 16-bit value
`0xffff`, i.e. a node atom with index `0x7fff`). -/
def red_getchar (fuel : Nat) (curr : Atom) (s : SKState) :
    Except RunErr (Atom × SKState) := do
  let arg0 := s.arg curr.idx
  let (c, s₁) : Atom × SKState :=
    match s.input with
    | [] => (Atom.node 0x7fff, s)
    | c :: rest => (Atom.lit c, { s with input := rest })
  let (k, s₂) := copy_atom s₁ arg0
  let (kc, s₃) ← alloc_app s₂ k c
  replace fuel s₃ curr kc

/-- `eval_two_lits`: reduce the arg of `rs_top_ptr[1]` in place (the global
`other_lit`, here the first component), then reduce the arg of `curr` (the
returned `rhs_lit`, second component); a result that is not a literal
contributes 0.  The final write-back stores `reduced_lhs` — not
`reduced_rhs` — into `curr`'s arg, exactly as `mini-sk.c` line 817 does. -/
def eval_two_lits (reduceFn : ReduceFn) (stack : List Atom) (curr : Atom)
    (s : SKState) : Except RunErr (Nat × Nat × SKState) := do
  let (rl, s₁) ← reduceFn s (s.arg (rsTop stack 1).idx)
  let s₂ := s₁.setArg (rsTop stack 1).idx rl
  let o := if rl.isLit then atomLit rl else 0
  let (rr, s₃) ← reduceFn s₂ (s₂.arg curr.idx)
  let s₄ := s₃.setArg curr.idx rl
  .ok (o, if rr.isLit then atomLit rr else 0, s₄)

/-- `builtin_2c_result`: deliver a ternary primitive's result through the
arg of `rs_top_ptr[0]`; when that continuation is the literal `I`, replace
the redex root `rs_top_ptr[2]` with the bare result. -/
def builtin_2c_result (fuel : Nat) (result : Atom) (stack : List Atom)
    (s : SKState) : Except RunErr (Atom × SKState) :=
  let arg0 := s.arg (rsTop stack 0).idx
  if arg0 = Atom.lit LIT_I then replace fuel s (rsTop stack 2) result
  else do
    let (k, s₁) := copy_atom s arg0
    let (kr, s₂) ← alloc_app s₁ k result
    replace fuel s₂ (rsTop stack 2) kr

/-- The shared shape of the six ternary primitives: `eval_two_lits` followed
by `builtin_2c_result` on a pure function of the two literal values. -/
def red_2c (g : Nat → Nat → Atom) (reduceFn : ReduceFn) (fuel : Nat)
    (stack : List Atom) (curr : Atom) (s : SKState) :
    Except RunErr (Atom × SKState) := do
  let (o, r, s₁) ← eval_two_lits reduceFn stack curr s
  builtin_2c_result fuel (g o r) stack s₁

/-- `(other_lit + rhs_lit) & 0x7fff`. -/
def red_plus : ReduceFn → Nat → List Atom → Atom → SKState →
    Except RunErr (Atom × SKState) :=
  red_2c (fun o r => Atom.lit ((o + r) % 0x8000))

/-- `(other_lit - rhs_lit) & 0x7fff` (16-bit operands promoted to `int`;
the bit-and of the possibly negative difference is its residue mod `2^15`). -/
def red_minus : ReduceFn → Nat → List Atom → Atom → SKState →
    Except RunErr (Atom × SKState) :=
  red_2c (fun o r => Atom.lit ((((o : Int) - r) % 0x8000).toNat))

/-- `(other_lit * rhs_lit) & 0x7fff`. -/
def red_times : ReduceFn → Nat → List Atom → Atom → SKState →
    Except RunErr (Atom × SKState) :=
  red_2c (fun o r => Atom.lit (o * r % 0x8000))

/-- `(other_lit / rhs_lit) & 0x7fff`.  Division by zero is undefined
behaviour in the C source (the spec calls it implementation-defined); the
embedding inherits Lean's `x / 0 = 0`. -/
def red_div : ReduceFn → Nat → List Atom → Atom → SKState →
    Except RunErr (Atom × SKState) :=
  red_2c (fun o r => Atom.lit (o / r % 0x8000))

/-- `other_lit == rhs_lit ? LIT_K : LIT_F`. -/
def red_eq : ReduceFn → Nat → List Atom → Atom → SKState →
    Except RunErr (Atom × SKState) :=
  red_2c (fun o r => Atom.lit (if o = r then LIT_K else LIT_F))

/-- `other_lit < rhs_lit ? LIT_K : LIT_F`. -/
def red_lt : ReduceFn → Nat → List Atom → Atom → SKState →
    Except RunErr (Atom × SKState) :=
  red_2c (fun o r => Atom.lit (if o < r then LIT_K else LIT_F))

/-- The `reducers` function-pointer table, indexed by `LIT_SUBTYPE`. -/
def applyRuleF (reduceFn : ReduceFn) (fuel : Nat) (subtype : Nat)
    (stack : List Atom) (curr : Atom) (s : SKState) :
    Except RunErr (Atom × SKState) :=
  match subtype with
  | 0 => red_ident fuel curr s
  | 1 => red_const fuel stack curr s
  | 2 => red_fusion fuel stack curr s
  | 3 => red_compose fuel stack curr s
  | 4 => red_flip fuel stack curr s
  | 5 => red_y curr s
  | 6 => red_putchar reduceFn fuel stack curr s
  | 7 => red_plus reduceFn fuel stack curr s
  | 8 => red_minus reduceFn fuel stack curr s
  | 9 => red_times reduceFn fuel stack curr s
  | 10 => red_div reduceFn fuel stack curr s
  | 11 => red_false fuel curr s
  | 12 => red_jump fuel stack curr s
  | 13 => red_eq reduceFn fuel stack curr s
  | 14 => red_lt reduceFn fuel stack curr s
  | 15 => red_getchar fuel curr s
  | _ => .error .badSubtype

/-- The forward I-chain walk of the reducer (`next = NODE_ARG(next)` while
`next` is a node whose `func` is `I`): returns the terminal atom together
with the list of indirection nodes visited. -/
def walkI (fuel : Nat) : SKState → Atom → Option (Atom × List Atom) :=
  @Nat.rec (fun _ => SKState → Atom → Option (Atom × List Atom))
    (fun _ _ => none)
    (fun _ ih s a =>
      let nxt := s.arg a.idx
      if nxt.isLit = false ∧ s.func nxt.idx = Atom.lit LIT_I then
        (ih s nxt).map fun p => (p.1, a :: p.2)
      else some (nxt, [a]))
    fuel

/-- The walk-back splice loop of the reducer: retain the terminal, release
`curr` (stopping if that freed it), otherwise swap `curr`'s arg to the
terminal and step to the saved old arg while it is still an I-rooted node. -/
def spliceI (fuel : Nat) : SKState → Atom → Atom → Except RunErr (Atom × SKState) :=
  @Nat.rec (fun _ => SKState → Atom → Atom → Except RunErr (Atom × SKState))
    (fun _ _ _ => .error .outOfFuel)
    (fun f ih s curr nxt =>
      let (_, s₁) := copy_atom s nxt
      match free_app_all f s₁ curr with
      | .error e => .error e
      | .ok (true, s₂) => .ok (nxt, s₂)
      | .ok (false, s₂) =>
        let tmp := s₂.arg curr.idx
        let s₃ := s₂.setArg curr.idx nxt
        if tmp.isLit = false ∧ s₃.func tmp.idx = Atom.lit LIT_I then
          ih s₃ tmp nxt
        else .ok (tmp, s₃))
    fuel

/-- The reducer's main loop.  `cap` is the number of spine slots still free
for this invocation (the stack buffer is shared with enclosing invocations).
Walking down the spine pushes application nodes (overflow is fatal),
I-chains are spliced, and when a literal head with `reqargs ≤ stack_len` is
reached the rule for its subtype fires on `rs_top_ptr[reqargs-1]`, the
spine is popped, and the new top's `func` is patched to the result.  A raw
datum or an under-applied head stops the loop: with an empty spine the
current atom is returned, otherwise the deepest spine entry. -/
def reduceGo (fuel : Nat) : Nat → SKState → Atom → List Atom →
    Except RunErr (Atom × SKState) :=
  @Nat.rec (fun _ => Nat → SKState → Atom → List Atom →
      Except RunErr (Atom × SKState))
    (fun _ _ _ _ => .error .outOfFuel)
    (fun f ih cap s curr stack =>
      match curr with
      | .lit l =>
        if litReqargs l ≠ 0 ∧ litReqargs l ≤ stack.length then
          let curr₁ := rsTop stack (litReqargs l - 1)
          match applyRuleF (fun s' a' => ih (cap - stack.length) s' a' [])
              f (litSubtype l) stack curr₁ s with
          | .error e => .error e
          | .ok (c₂, s₂) =>
            match stack.drop (litReqargs l) with
            | [] => ih cap s₂ c₂ []
            | top :: rest =>
              ih cap (s₂.setFunc top.idx c₂) c₂ (top :: rest)
        else .ok (stack.getLastD (Atom.lit l), s)
      | .node n =>
        let a := Atom.node n
        let next := s.func a.idx
        if next = Atom.lit LIT_I then
          match walkI f s a with
          | none => .error .outOfFuel
          | some (t, _) =>
            match spliceI f s a t with
            | .error e => .error e
            | .ok (c₁, s₁) =>
              match stack with
              | [] => ih cap s₁ c₁ []
              | top :: rest =>
                ih cap (s₁.setFunc top.idx c₁) c₁ (top :: rest)
        else
          if stack.length < cap then ih cap s next (a :: stack)
          else .error .stackOverflow)
    fuel

/-- `reduce`: run the main loop on an empty spine with the full stack
capacity. -/
def reduce (fuel : Nat) (s : SKState) (a : Atom) :
    Except RunErr (Atom × SKState) :=
  reduceGo fuel MAX_STACK s a []

/-! ### Concrete heaps

`mkS fs as rcs` builds a heap whose first nodes carry the listed `func`,
`arg` and `refcount` fields, all remaining nodes being threaded on the
free-list (each free node's `func` links to the next index, ending at the
sentinel `MAX_APPS`), exactly the shape `init_apps` plus a parser run
produces. -/

def mkS (fs as : List Atom) (rcs : List Nat) : SKState :=
  { func := fun i => fs.getD i (if i + 1 ≤ MAX_APPS then .node (i + 1) else .lit 0),
    arg := fun i => as.getD i (.lit 0),
    refcount := fun i => rcs.getD i 0,
    freelist := .node rcs.length,
    currentApps := rcs.length,
    output := [],
    input := [] }

/-- The saturated redex `((P 65) 66)`: node 1 is the root. -/
def stP6566 : SKState :=
  mkS [.lit LIT_P, .node 0] [.lit 65, .lit 66] [1, 1]

/-- The term `(((+ 3) 4) I)`: node 2 is the root. -/
def stPlus34I : SKState :=
  mkS [.lit LIT_pl, .node 0, .node 1] [.lit 3, .lit 4, .lit LIT_I] [1, 1, 1]

/-- The redex `(Y 77)` at node 0. -/
def stY77 : SKState := mkS [.lit LIT_Y] [.lit 77] [1]

/-- The term `(((+ I) 3) (K K))`: node 2 is the root, node 3 holds the
operand `(K K)`, which does not reduce to a literal. -/
def stPlusI3KK : SKState :=
  mkS [.lit LIT_pl, .node 0, .node 1, .lit LIT_K]
    [.lit LIT_I, .lit 3, .node 3, .lit LIT_K] [1, 1, 1, 1]

/-- The spine stack passed to a ternary rule firing on nodes 0/1/2. -/
def spine3 : List Atom := [.node 0, .node 1, .node 2]

/-- The sub-term reducer as the main loop hands it to a rule. -/
def subReduce (fuel cap : Nat) : ReduceFn := fun s a => reduceGo fuel cap s a []

/-- A saturated S-redex `(((S f) g) x)` over literal children `f`, `g`, `x`,
each spine node uniquely referenced, with free nodes 3, 4, 5, … available. -/
def stFusion (fa ga xa : Nat) : SKState :=
  mkS [.lit LIT_S, .node 0, .node 1] [.lit fa, .lit ga, .lit xa] [1, 1, 1]

/-- A saturated P-redex `((P x) y)` over literal children, node 1 the root. -/
def stPxy (x y : Nat) : SKState :=
  mkS [.lit LIT_P, .node 0] [.lit x, .lit y] [1, 1]

/-- The P-redex `((P 65) (K 5))` whose printed operand (node 2) does not
reduce to a literal. -/
def stPnode : SKState :=
  mkS [.lit LIT_P, .node 0, .lit LIT_K] [.lit 65, .node 2, .lit 5] [1, 1, 1]

/-- A saturated ternary-primitive redex `(((op I) a) b)`: the continuation
(first argument) is `I`, the operands are the literals `a` and `b`. -/
def stArith (op a b : Nat) : SKState :=
  mkS [.lit op, .node 0, .node 1] [.lit LIT_I, .lit a, .lit b] [1, 1, 1]

/-- A node 0 holding `(K 5)` with refcount 1, for exercising `replace`. -/
def stRepl : SKState := mkS [.lit LIT_K] [.lit 5] [1]

/-- A two-link I-chain: node 0 = `(I node1)`, node 1 = `(I 99)`, both
shared (refcount 2). -/
def stChain : SKState :=
  mkS [.lit LIT_I, .lit LIT_I] [.node 1, .lit 99] [2, 2]

/-- A two-link I-chain whose head is uniquely referenced: node 0 =
`(I node1)` with refcount 1, node 1 = `(I 99)` with refcount 2. -/
def stChain1 : SKState :=
  mkS [.lit LIT_I, .lit LIT_I] [.node 1, .lit 99] [1, 2]

/-- A saturated S-redex `(((S f) g) x)` whose three arguments are
application nodes — `f = node 3 = (K 7)`, `g = node 4 = (K 8)`,
`x = node 5 = (K 9)` — so that `retain` genuinely increments refcounts;
nodes 6, 7, 8 are free. -/
def stFusionN : SKState :=
  mkS [.lit LIT_S, .node 0, .node 1, .lit LIT_K, .lit LIT_K, .lit LIT_K]
    [.node 3, .node 4, .node 5, .lit 7, .lit 8, .lit 9]
    [1, 1, 1, 1, 1, 1]

/-- A left spine of `N+1` application nodes: node `i` is
`(node (i+1) 1)` for `i < N` and node `N` is `(7 1)`.  Its head literal sits
under `N+1` spine entries. -/
def spineDeep (N : Nat) : SKState :=
  { func := fun i => if i < N then .node (i + 1) else .lit 7,
    arg := fun _ => .lit 1,
    refcount := fun _ => 1,
    freelist := .node MAX_APPS,
    currentApps := N + 1,
    output := [],
    input := [] }

/-- One step of the indirection rewrite the I-chain splice implements:
`(I x)` at the head is replaced by `x`. -/
def istep (s : SKState) (x y : Atom) : Prop :=
  x.isLit = false ∧ s.func x.idx = Atom.lit LIT_I ∧ y = s.arg x.idx

/-! ### Basic lemmas about the embedding -/

@[simp] theorem idx_node (n : Nat) : (Atom.node n).idx = n % 0x8000 := rfl

@[simp] theorem idx_lit (l : Nat) : (Atom.lit l).idx = l % 0x8000 := rfl

@[simp] theorem isLit_node (n : Nat) : (Atom.node n).isLit = false := rfl

@[simp] theorem isLit_lit (l : Nat) : (Atom.lit l).isLit = true := rfl

@[simp] theorem setRc_func (s : SKState) (n v : Nat) :
    (s.setRc n v).func = s.func := rfl

@[simp] theorem setRc_arg (s : SKState) (n v : Nat) :
    (s.setRc n v).arg = s.arg := rfl

@[simp] theorem setRc_freelist (s : SKState) (n v : Nat) :
    (s.setRc n v).freelist = s.freelist := rfl

@[simp] theorem setRc_refcount (s : SKState) (n v i : Nat) :
    (s.setRc n v).refcount i = if i = n then v else s.refcount i := rfl

@[simp] theorem setArg_func (s : SKState) (n : Nat) (v : Atom) :
    (s.setArg n v).func = s.func := rfl

@[simp] theorem setArg_refcount (s : SKState) (n : Nat) (v : Atom) :
    (s.setArg n v).refcount = s.refcount := rfl

@[simp] theorem setArg_arg (s : SKState) (n : Nat) (v : Atom) (i : Nat) :
    (s.setArg n v).arg i = if i = n then v else s.arg i := rfl

@[simp] theorem setFunc_arg (s : SKState) (n : Nat) (v : Atom) :
    (s.setFunc n v).arg = s.arg := rfl

@[simp] theorem setFunc_refcount (s : SKState) (n : Nat) (v : Atom) :
    (s.setFunc n v).refcount = s.refcount := rfl

@[simp] theorem setFunc_func (s : SKState) (n : Nat) (v : Atom) (i : Nat) :
    (s.setFunc n v).func i = if i = n then v else s.func i := rfl

@[simp] theorem setRc_currentApps (s : SKState) (n v : Nat) :
    (s.setRc n v).currentApps = s.currentApps := rfl

@[simp] theorem setArg_currentApps (s : SKState) (n : Nat) (v : Atom) :
    (s.setArg n v).currentApps = s.currentApps := rfl

@[simp] theorem setFunc_currentApps (s : SKState) (n : Nat) (v : Atom) :
    (s.setFunc n v).currentApps = s.currentApps := rfl

@[simp] theorem setArg_freelist (s : SKState) (n : Nat) (v : Atom) :
    (s.setArg n v).freelist = s.freelist := rfl

@[simp] theorem setFunc_freelist (s : SKState) (n : Nat) (v : Atom) :
    (s.setFunc n v).freelist = s.freelist := rfl

@[simp] theorem setRc_output (s : SKState) (n v : Nat) :
    (s.setRc n v).output = s.output := rfl

@[simp] theorem setArg_output (s : SKState) (n : Nat) (v : Atom) :
    (s.setArg n v).output = s.output := rfl

theorem exbind_ok {ε α β : Type} (a : α) (f : α → Except ε β) :
    (Except.ok (ε := ε) a >>= f) = f a := rfl

theorem exbind_err {ε α β : Type} (e : ε) (f : α → Except ε β) :
    ((Except.error e : Except ε α) >>= f) = .error e := rfl

/-! Unfolding equations for the fuel-indexed recursive functions (their
`Nat.rec` bodies step by plain iota reduction). -/

theorem free_app_all_zero (s : SKState) (a : Atom) :
    free_app_all 0 s a = .error .outOfFuel := rfl

theorem free_app_all_succ (f : Nat) (s : SKState) (a : Atom) :
    free_app_all (f + 1) s a =
      (if a.isLit then .ok (false, s)
       else
         let rc := (s.refcount a.idx + 65535) % 65536
         let s₁ := s.setRc a.idx rc
         if rc ≠ 0 then .ok (false, s₁)
         else do
           let (_, s₂) ← free_app_all f s₁ (s₁.arg a.idx)
           let (_, s₃) ← free_app_all f s₂ (s₂.func a.idx)
           .ok (true, free_app s₃ a)) := rfl

theorem walkI_zero (s : SKState) (a : Atom) : walkI 0 s a = none := rfl

theorem walkI_succ (f : Nat) (s : SKState) (a : Atom) :
    walkI (f + 1) s a =
      (let nxt := s.arg a.idx
       if nxt.isLit = false ∧ s.func nxt.idx = Atom.lit LIT_I then
         (walkI f s nxt).map fun p => (p.1, a :: p.2)
       else some (nxt, [a])) := rfl

theorem spliceI_zero (s : SKState) (curr nxt : Atom) :
    spliceI 0 s curr nxt = .error .outOfFuel := rfl

theorem spliceI_succ (f : Nat) (s : SKState) (curr nxt : Atom) :
    spliceI (f + 1) s curr nxt =
      (let (_, s₁) := copy_atom s nxt
       match free_app_all f s₁ curr with
       | .error e => .error e
       | .ok (true, s₂) => .ok (nxt, s₂)
       | .ok (false, s₂) =>
         let tmp := s₂.arg curr.idx
         let s₃ := s₂.setArg curr.idx nxt
         if tmp.isLit = false ∧ s₃.func tmp.idx = Atom.lit LIT_I then
           spliceI f s₃ tmp nxt
         else .ok (tmp, s₃)) := rfl

theorem reduceGo_zero (cap : Nat) (s : SKState) (curr : Atom)
    (stack : List Atom) : reduceGo 0 cap s curr stack = .error .outOfFuel := rfl

theorem reduceGo_succ (f cap : Nat) (s : SKState) (curr : Atom)
    (stack : List Atom) :
    reduceGo (f + 1) cap s curr stack =
      (match curr with
       | .lit l =>
         if litReqargs l ≠ 0 ∧ litReqargs l ≤ stack.length then
           let curr₁ := rsTop stack (litReqargs l - 1)
           match applyRuleF (fun s' a' => reduceGo f (cap - stack.length) s' a' [])
               f (litSubtype l) stack curr₁ s with
           | .error e => .error e
           | .ok (c₂, s₂) =>
             match stack.drop (litReqargs l) with
             | [] => reduceGo f cap s₂ c₂ []
             | top :: rest =>
               reduceGo f cap (s₂.setFunc top.idx c₂) c₂ (top :: rest)
         else .ok (stack.getLastD (Atom.lit l), s)
       | .node n =>
         let a := Atom.node n
         let next := s.func a.idx
         if next = Atom.lit LIT_I then
           match walkI f s a with
           | none => .error .outOfFuel
           | some (t, _) =>
             match spliceI f s a t with
             | .error e => .error e
             | .ok (c₁, s₁) =>
               match stack with
               | [] => reduceGo f cap s₁ c₁ []
               | top :: rest =>
                 reduceGo f cap (s₁.setFunc top.idx c₁) c₁ (top :: rest)
         else
           if stack.length < cap then reduceGo f cap s next (a :: stack)
           else .error .stackOverflow) := rfl

/-- A literal with an empty spine stack is returned unchanged by the main
loop, whatever its arity byte: a raw datum stops at step 2, an under-applied
combinator head at step 4. -/
theorem reduceGo_lit_nil (f cap : Nat) (s : SKState) (l : Nat) :
    reduceGo (f + 1) cap s (.lit l) [] = .ok (.lit l, s) := by
  have h : ¬(litReqargs l ≠ 0 ∧ litReqargs l ≤ ([] : List Atom).length) := by
    rintro ⟨h1, h2⟩
    exact h1 (Nat.le_zero.mp h2)
  simp only [reduceGo_succ, if_neg h]
  rfl

/-! ### Small-step characterisations

One lemma per branch of each recursive function, driven by hypotheses on
the state fields, so that concrete runs over states containing symbolic
payloads can be assembled by rewriting instead of deep definitional
unfolding. -/

theorem copy_lit (s : SKState) (a : Atom) (h : a.isLit = true) :
    copy_atom s a = (a, s) := by
  simp [copy_atom, h]

theorem alloc_ok (s : SKState) (fv av : Atom)
    (hm : s.freelist ≠ .node MAX_APPS) :
    alloc_app s fv av = .ok (s.freelist,
      { s with
        freelist := s.func s.freelist.idx,
        func := fun i => if i = s.freelist.idx then fv else s.func i,
        arg := fun i => if i = s.freelist.idx then av else s.arg i,
        refcount := fun i => if i = s.freelist.idx then 1 else s.refcount i,
        currentApps := s.currentApps + 1 }) := by
  simp [alloc_app, hm]

theorem fapp_lit (fuel : Nat) (hf : fuel ≠ 0) (s : SKState) (a : Atom)
    (h : a.isLit = true) : free_app_all fuel s a = .ok (false, s) := by
  cases fuel with
  | zero => exact absurd rfl hf
  | succ f => simp [free_app_all_succ, h]

theorem fapp_dec (fuel : Nat) (hf : fuel ≠ 0) (s : SKState) (n : Nat)
    (h2 : 2 ≤ s.refcount ((Atom.node n).idx))
    (hlt : s.refcount ((Atom.node n).idx) < 65536) :
    free_app_all fuel s (.node n) =
      .ok (false, s.setRc ((Atom.node n).idx)
        (s.refcount ((Atom.node n).idx) - 1)) := by
  cases fuel with
  | zero => exact absurd rfl hf
  | succ f =>
    simp only [idx_node] at h2 hlt
    have e : (s.refcount (n % 32768) + 65535) % 65536 =
        s.refcount (n % 32768) - 1 := by omega
    have hne : s.refcount (n % 32768) - 1 ≠ 0 := by omega
    simp [free_app_all_succ, e, hne]

theorem fapp_freed (fuel : Nat) (hf : fuel ≠ 0) (s : SKState) (n : Nat)
    (hrc : s.refcount ((Atom.node n).idx) = 1) :
    free_app_all fuel s (.node n) = (do
      let (_, s₂) ← free_app_all (fuel - 1) (s.setRc ((Atom.node n).idx) 0)
        ((s.setRc ((Atom.node n).idx) 0).arg ((Atom.node n).idx))
      let (_, s₃) ← free_app_all (fuel - 1) s₂ (s₂.func ((Atom.node n).idx))
      .ok (true, free_app s₃ (.node n))) := by
  cases fuel with
  | zero => exact absurd rfl hf
  | succ f =>
    simp only [idx_node] at hrc
    have e : (s.refcount (n % 32768) + 65535) % 65536 = 0 := by
      rw [hrc]
    simp [free_app_all_succ, e]

theorem reduceGo_push (fuel cap : Nat) (hf : fuel ≠ 0) (s : SKState) (n : Nat)
    (stack : List Atom) (hnI : s.func ((Atom.node n).idx) ≠ .lit LIT_I)
    (hlen : stack.length < cap) :
    reduceGo fuel cap s (.node n) stack =
      reduceGo (fuel - 1) cap s (s.func ((Atom.node n).idx))
        (.node n :: stack) := by
  cases fuel with
  | zero => exact absurd rfl hf
  | succ f =>
    simp only [idx_node] at hnI
    simp [reduceGo_succ, hnI, hlen]

theorem reduceGo_overflow (fuel cap : Nat) (hf : fuel ≠ 0) (s : SKState)
    (n : Nat) (stack : List Atom)
    (hnI : s.func ((Atom.node n).idx) ≠ .lit LIT_I)
    (hlen : ¬stack.length < cap) :
    reduceGo fuel cap s (.node n) stack = .error .stackOverflow := by
  cases fuel with
  | zero => exact absurd rfl hf
  | succ f =>
    simp only [idx_node] at hnI
    simp [reduceGo_succ, hnI, hlen]

theorem reduceGo_lit_done (fuel cap : Nat) (hf : fuel ≠ 0) (s : SKState)
    (l : Nat) (stack : List Atom)
    (h : ¬(litReqargs l ≠ 0 ∧ litReqargs l ≤ stack.length)) :
    reduceGo fuel cap s (.lit l) stack = .ok (stack.getLastD (.lit l), s) := by
  cases fuel with
  | zero => exact absurd rfl hf
  | succ f => simp only [reduceGo_succ, if_neg h]

theorem reduceGo_fire (fuel cap : Nat) (hf : fuel ≠ 0) (s : SKState)
    (l : Nat) (stack : List Atom) (hreq : litReqargs l ≠ 0)
    (hle : litReqargs l ≤ stack.length) :
    reduceGo fuel cap s (.lit l) stack =
      (match applyRuleF
          (fun s' a' => reduceGo (fuel - 1) (cap - stack.length) s' a' [])
          (fuel - 1) (litSubtype l) stack (rsTop stack (litReqargs l - 1)) s with
       | .error e => .error e
       | .ok (c₂, s₂) =>
         match stack.drop (litReqargs l) with
         | [] => reduceGo (fuel - 1) cap s₂ c₂ []
         | top :: rest =>
           reduceGo (fuel - 1) cap (s₂.setFunc top.idx c₂) c₂ (top :: rest)) := by
  cases fuel with
  | zero => exact absurd rfl hf
  | succ f => simp [reduceGo_succ, hreq, hle]

theorem reduceGo_ichain (fuel cap : Nat) (hf : fuel ≠ 0) (s : SKState)
    (n : Nat) (stack : List Atom)
    (hI : s.func ((Atom.node n).idx) = .lit LIT_I) :
    reduceGo fuel cap s (.node n) stack =
      (match walkI (fuel - 1) s (.node n) with
       | none => .error .outOfFuel
       | some (t, _) =>
         match spliceI (fuel - 1) s (.node n) t with
         | .error e => .error e
         | .ok (c₁, s₁) =>
           match stack with
           | [] => reduceGo (fuel - 1) cap s₁ c₁ []
           | top :: rest =>
             reduceGo (fuel - 1) cap (s₁.setFunc top.idx c₁) c₁
               (top :: rest)) := by
  cases fuel with
  | zero => exact absurd rfl hf
  | succ f =>
    simp only [idx_node] at hI
    simp [reduceGo_succ, hI]

/-- Walking the left spine of `spineDeep N` from node `i` with fewer free
spine slots than remaining spine nodes always ends in a stack overflow. -/
theorem spineDeep_overflow (cap N : Nat) (hN : N < 32768) :
    ∀ (fuel : Nat) (i : Nat) (stack : List Atom),
      cap - stack.length ≤ N - i → cap - stack.length < fuel → i ≤ N →
      reduceGo fuel cap (spineDeep N) (.node i) stack =
        .error .stackOverflow := by
  intro fuel
  induction fuel with
  | zero =>
    intro i stack h1 h2 h3
    omega
  | succ f ih =>
    intro i stack h1 h2 h3
    have hidx : (Atom.node i).idx = i := by
      simp [Atom.idx]
      omega
    have hnI : (spineDeep N).func ((Atom.node i).idx) ≠ .lit LIT_I := by
      rw [hidx]
      simp only [spineDeep]
      split
      · simp
      · simp [LIT_I]
    by_cases hlen : stack.length < cap
    · have hiN : i < N := by omega
      have hfi : (spineDeep N).func ((Atom.node i).idx) = .node (i + 1) := by
        rw [hidx]
        simp [spineDeep, hiN]
      rw [reduceGo_push (f + 1) cap (by simp) (spineDeep N) i stack hnI hlen,
        hfi]
      have := ih (i + 1) (.node i :: stack) (by simp; omega) (by simp; omega)
        (by omega)
      simpa using this
    · exact reduceGo_overflow (f + 1) cap (by simp) (spineDeep N) i stack hnI
        hlen

/-- C2, counterexample.  On the redex `((P 65) 66)` the claim predicts that
the first argument 65 is printed and the retained second argument 66 is
returned.  The rule actually prints 66 and returns 65. -/
theorem c2_counterexample :
    (red_putchar (subReduce 20 510) 20 [.node 0, .node 1] (.node 1) stP6566).toOption.map
        (fun p => (p.1, p.2.output)) = some (.lit 65, [66]) ∧
    (red_putchar (subReduce 20 510) 20 [.node 0, .node 1] (.node 1) stP6566).toOption.map
        (fun p => (p.1, p.2.output)) ≠ some (.lit 66, [65]) := by
  decide

/-- C3, counterexample.  The claim predicts `reduce (((+ 3) 4) I) = lit 7`.
The engine instead yields the application node `(3 260)`: the operands are
4 and the 16-bit code of `I` (256), and 3 is used as the continuation. -/
theorem c3_counterexample :
    (reduce 30 stPlus34I (.node 2)).toOption.map
        (fun p => (p.1, p.2.func p.1.idx, p.2.arg p.1.idx)) =
      some (.node 3, .lit 3, .lit 260) ∧
    (reduce 30 stPlus34I (.node 2)).toOption.map Prod.fst ≠ some (.lit 7) := by
  decide

/-- C4, counterexample.  Firing the Y rule on the redex `(Y 77)` (node 0,
refcount 1) leaves `NODE_REFCOUNT(curr)` at 1; the claim predicts it
becomes 2. -/
theorem c4_counterexample :
    (red_y (.node 0) stY77).toOption.map (fun p => (p.1, p.2.refcount 0)) =
      some (.node 1, 1) ∧
    (red_y (.node 0) stY77).toOption.map (fun p => p.2.refcount 0) ≠ some 2 := by
  decide

/-- C4, amended.  Firing the Y rule on `curr = (Y f)` (node `c`) returns a
fresh application node `app(retain(f), curr)` without `replace`: the new
node `m` holds the retained `f` as `func` and `curr` itself as `arg`, the
redex node is left untouched, and — the amendment — `curr`'s refcount is
unchanged (the new node stores `curr` without retaining it; the parent's
reference is transferred by the subsequent spine patch). -/
theorem c4_y_no_retain (s : SKState) (c m : Nat) (hc : c < 32768)
    (hm : m < 32768) (hfree : s.freelist = .node m) (hmMax : m ≠ MAX_APPS)
    (hmc : m ≠ c) (hself : (s.arg c).isLit = true ∨ (s.arg c).idx ≠ c) :
    (red_y (.node c) s).toOption.map
        (fun p => (p.1, p.2.refcount c, p.2.func m, p.2.arg m, p.2.refcount m,
          p.2.func c, p.2.arg c, p.2.currentApps)) =
      some (.node m, s.refcount c, s.arg c, .node c, 1,
        s.func c, s.arg c, s.currentApps + 1) := by
  have hcm : c % 32768 = c := Nat.mod_eq_of_lt hc
  have hmm : m % 32768 = m := Nat.mod_eq_of_lt hm
  have hMAX : ¬(Atom.node m = Atom.node MAX_APPS) := by
    simp [hmMax]
  rcases ha : s.arg c with l | d
  · simp [red_y, copy_atom, alloc_app, Atom.idx, hcm, hmm, ha, hfree, hMAX,
      hmc, Ne.symm hmc, Except.toOption]
  · have hd : d % 32768 ≠ c := by
      rcases hself with h | h
      · rw [ha] at h; simp at h
      · rw [ha] at h; simpa [Atom.idx] using h
    simp [red_y, copy_atom, alloc_app, Atom.idx, hcm, hmm, ha, hfree, hMAX,
      hmc, Ne.symm hmc, hd, Ne.symm hd, Except.toOption]

/-- C4, witness: the amended Y-rule theorem applied to the concrete redex
`(Y 77)` at node 0 with free node 1. -/
theorem c4_witness :
    (red_y (.node 0) stY77).toOption.map
        (fun p => (p.1, p.2.refcount 0, p.2.func 1, p.2.arg 1, p.2.refcount 1,
          p.2.func 0, p.2.arg 0, p.2.currentApps)) =
      some (.node 1, 1, .lit 77, .node 0, 1, .lit LIT_Y, .lit 77, 2) := by
  have h := c4_y_no_retain stY77 0 1 (by norm_num) (by norm_num) rfl
    (by decide) (by decide) (by left; rfl)
  exact h.trans rfl

/-- C6: `replace orig reduced` on a node `orig`.  When `orig`'s refcount is
1, the single release frees it — children released, node pushed on the
free-list — and `reduced` is returned directly with that fully-released
state.  Otherwise the release only decrements `orig`'s refcount and the
rule retains `reduced`, releases the old `func` and `arg` children, and
overwrites `orig` into the indirection `func := I`, `arg := reduced`,
returning `reduced`. -/
theorem c6_replace_spec (fuel : Nat) (s : SKState) (n : Nat) (reduced : Atom)
    (b : Bool) (s₁ : SKState)
    (hrun : free_app_all fuel s (.node n) = .ok (b, s₁))
    (hlt : s.refcount (Atom.node n).idx < 65536) :
    (s.refcount (Atom.node n).idx = 1 →
      b = true ∧ s₁.freelist = .node n ∧
      replace fuel s (.node n) reduced = .ok (reduced, s₁)) ∧
    (1 < s.refcount (Atom.node n).idx →
      b = false ∧
      s₁ = s.setRc (Atom.node n).idx (s.refcount (Atom.node n).idx - 1) ∧
      replace fuel s (.node n) reduced = (do
        let (_, s₂) := copy_atom s₁ reduced
        let (_, s₃) ← free_app_all fuel s₂ (s₂.func (Atom.node n).idx)
        let (_, s₄) ← free_app_all fuel s₃ (s₃.arg (Atom.node n).idx)
        .ok (reduced,
          { s₄ with
            func := fun i => if i = (Atom.node n).idx then Atom.lit LIT_I else s₄.func i,
            arg := fun i => if i = (Atom.node n).idx then reduced else s₄.arg i }))) := by
  rcases fuel with - | f
  · exact absurd hrun (by simp [free_app_all_zero])
  have hrun0 := hrun
  constructor
  · intro h1
    have hrc0 : ((s.refcount (Atom.node n).idx + 65535) % 65536) = 0 := by omega
    simp only [free_app_all_succ, isLit_node, Bool.false_eq_true, if_false,
      hrc0, ne_eq, not_true_eq_false] at hrun
    rcases h2 : free_app_all f (s.setRc (Atom.node n).idx 0)
        ((s.setRc (Atom.node n).idx 0).arg (Atom.node n).idx) with e | ⟨b2, s2⟩
    · rw [h2, exbind_err] at hrun
      exact absurd hrun (by simp)
    rw [h2, exbind_ok] at hrun
    rcases h3 : free_app_all f s2 (s2.func (Atom.node n).idx) with e | ⟨b3, s3⟩
    · rw [h3, exbind_err] at hrun
      exact absurd hrun (by simp)
    rw [h3, exbind_ok] at hrun
    obtain ⟨hb, hs⟩ : true = b ∧ free_app s3 (.node n) = s₁ := by
      simpa using hrun
    refine ⟨hb.symm, ?_, ?_⟩
    · rw [← hs]; rfl
    · unfold replace
      rw [hrun0, exbind_ok, ← hb]
      rfl
  · intro h2
    have hrc : ((s.refcount (Atom.node n).idx + 65535) % 65536) =
        s.refcount (Atom.node n).idx - 1 := by omega
    have hne : s.refcount (Atom.node n).idx - 1 ≠ 0 := by omega
    simp only [free_app_all_succ, isLit_node, Bool.false_eq_true, if_false,
      hrc, ne_eq, hne, not_false_eq_true, if_true] at hrun
    obtain ⟨hb, hs⟩ : false = b ∧
        s.setRc (Atom.node n).idx (s.refcount (Atom.node n).idx - 1) = s₁ := by
      simpa using hrun
    refine ⟨hb.symm, hs.symm, ?_⟩
    unfold replace
    rw [hrun0, exbind_ok, ← hb, ← hs]
    rfl

/-- C6, witness: `replace` on the uniquely-referenced node `(K 5)` frees it
and returns the reduct directly, the freed node ending on the free-list. -/
theorem c6_witness :
    ∃ s₁, replace 3 stRepl (.node 0) (.lit 9) = .ok (.lit 9, s₁) ∧
      s₁.freelist = .node 0 := by
  obtain ⟨b, s₁, hrun⟩ :
      ∃ b s₁, free_app_all 3 stRepl (.node 0) = .ok (b, s₁) := ⟨_, _, rfl⟩
  obtain ⟨-, hfl, hrepl⟩ :=
    (c6_replace_spec 3 stRepl 0 (.lit 9) b s₁ hrun (by decide)).1 (by decide)
  exact ⟨s₁, hrepl, hfl⟩

/-- C10: when the operand of a saturated P redex fails to reduce to a
literal (the in-place reduction returns a node reference `v`), the rule
writes `'*'` (42) to the output stream instead of any literal's low byte,
then proceeds with the retained continuation as usual. -/
theorem c10_putchar_star (reduceFn : ReduceFn) (fuel : Nat)
    (stack : List Atom) (curr v : Atom) (s s₁ : SKState)
    (hred : reduceFn s (s.arg curr.idx) = .ok (v, s₁))
    (hv : v.isLit = false) :
    red_putchar reduceFn fuel stack curr s =
      (let s₂ := s₁.setArg curr.idx v
       let s₃ := { s₂ with output := s₂.output ++ [42] }
       let (k, s₄) := copy_atom s₃ (s₃.arg (rsTop stack 0).idx)
       replace fuel s₄ curr k) := by
  rw [red_putchar, hred, exbind_ok]
  simp [hv]

/-- C10, witness: the star theorem applied to the redex `((P 65) (K 5))`,
whose printed operand `(K 5)` reduces to itself (a node); the engine prints
42 and returns the literal 65. -/
theorem c10_witness :
    (red_putchar (subReduce 20 510) 20 [.node 0, .node 1] (.node 1) stPnode).toOption.map
        (fun p => (p.1, p.2.output)) = some (.lit 65, [42]) := by
  rw [c10_putchar_star (subReduce 20 510) 20 [.node 0, .node 1] (.node 1)
    (.node 2) stPnode stPnode rfl rfl]
  decide

/-- C5: refcount soundness is violated by the engine.  Reducing the term
`(((+ I) 3) (K K))` yields the literal 3, yet afterwards node 3 (the
`(K K)` operand) is still allocated with refcount 1 although no atom
references it: `eval_two_lits` wrote `reduced_lhs` instead of `reduced_rhs`
into the redex root's `arg`, dropping the only reference to the operand
without releasing it.  One live node with a positive refcount remains, so
the sum of refcounts exceeds the number of referencing atoms (the result is
a literal and the spine stack is empty, so nothing references node 3). -/
theorem c5_leak :
    (reduce 30 stPlusI3KK (.node 2)).toOption.map
        (fun p => (p.1, p.2.currentApps, p.2.refcount 3, p.2.func 3, p.2.arg 3)) =
      some (.lit 3, 1, 1, .lit LIT_K, .lit LIT_K) := by
  decide

/-- C2, amended.  The P rule reduces the arg of `curr` — the second
argument `y` — to WHNF, writes it back in place, emits the low byte of the
reduced literal to the output stream, and returns
`replace(curr, retain(x))` where `x` is the arg of `rs_top_ptr[0]`, the
first argument: continuation-passing output with the first argument as the
continuation. -/
theorem c2_putchar_rule (reduceFn : ReduceFn) (fuel : Nat)
    (stack : List Atom) (curr v : Atom) (s s₁ : SKState)
    (hred : reduceFn s (s.arg curr.idx) = .ok (v, s₁))
    (hv : v.isLit = true) :
    red_putchar reduceFn fuel stack curr s =
      (let s₂ := s₁.setArg curr.idx v
       let s₃ := { s₂ with output := s₂.output ++ [atomLit v % 256] }
       let (k, s₄) := copy_atom s₃ (s₃.arg (rsTop stack 0).idx)
       replace fuel s₄ curr k) := by
  unfold red_putchar
  simp only [hred, exbind_ok, hv, if_true, ite_true]

/-- C2, witness: the amended theorem applied to the concrete redex
`((P 65) 66)`: the engine prints 66 (the second argument) and returns the
retained first argument 65, freeing the redex. -/
theorem c2_witness :
    (red_putchar (subReduce 20 510) 20 [.node 0, .node 1] (.node 1)
        stP6566).toOption.map (fun p => (p.1, p.2.output, p.2.currentApps)) =
      some (.lit 65, [66], 0) := by
  have h := c2_putchar_rule (subReduce 20 510) 20 [.node 0, .node 1]
    (.node 1) (.lit 66) stP6566 stP6566 rfl rfl
  rw [h]
  decide

/-- C9: spine-stack overflow is fatal.  Reducing a left spine of more than
`cap` application nodes with `cap` free spine slots aborts with the
distinguished `stackOverflow` outcome (modelling the engine's failed
`assert` / diagnostic-and-abort), with no recovery; in particular `reduce`
itself, whose capacity is the build constant `MAX_STACK`, aborts on a
spine deeper than `MAX_STACK`. -/
theorem c9_overflow (cap N fuel : Nat) (hN : N < 32768) (hcap : cap ≤ N)
    (hfuel : cap < fuel) :
    reduceGo fuel cap (spineDeep N) (.node 0) [] = .error .stackOverflow ∧
    (MAX_STACK ≤ N → MAX_STACK < fuel →
      reduce fuel (spineDeep N) (.node 0) = .error .stackOverflow) := by
  constructor
  · exact spineDeep_overflow cap N hN fuel 0 [] (by simpa using hcap)
      (by simpa using hfuel) (by omega)
  · intro h1 h2
    exact spineDeep_overflow MAX_STACK N hN fuel 0 [] (by simpa using h1)
      (by simpa using h2) (by omega)

/-- C9, witness: a 6-node spine with capacity 2 overflows, and a 601-node
spine overflows the full `MAX_STACK = 512` buffer of `reduce`. -/
theorem c9_witness :
    reduceGo 4 2 (spineDeep 5) (.node 0) [] = .error .stackOverflow ∧
    reduce 520 (spineDeep 600) (.node 0) = .error .stackOverflow := by
  refine ⟨(c9_overflow 2 5 4 (by norm_num) (by norm_num) (by norm_num)).1, ?_⟩
  exact (c9_overflow 512 600 520 (by norm_num) (by norm_num)
    (by norm_num)).2 (by norm_num [MAX_STACK]) (by norm_num [MAX_STACK])


theorem eval2_stArith (op a b : Nat) :
    eval_two_lits (fun s' a' => reduceGo 26 509 s' a' []) spine3 (.node 2)
        (stArith op a b) =
      .ok (a, b, ((stArith op a b).setArg 1 (.lit a)).setArg 2 (.lit a)) := by
  have c1 : reduceGo 26 509 (stArith op a b) ((stArith op a b).arg 1) [] =
      .ok (.lit a, stArith op a b) := reduceGo_lit_nil 25 509 _ a
  have c2 : reduceGo 26 509 ((stArith op a b).setArg 1 (.lit a))
      (((stArith op a b).setArg 1 (.lit a)).arg ((Atom.node 2).idx)) [] =
      .ok (.lit b, (stArith op a b).setArg 1 (.lit a)) :=
    reduceGo_lit_nil 25 509 _ b
  have e1 : (rsTop spine3 1).idx = 1 := rfl
  unfold eval_two_lits
  simp only [e1, c1, exbind_ok, c2]
  rfl

theorem builtin_2c_I (fuel : Nat) (result : Atom) (stack : List Atom)
    (s : SKState) (h : s.arg ((rsTop stack 0).idx) = .lit LIT_I) :
    builtin_2c_result fuel result stack s =
      replace fuel s (rsTop stack 2) result := by
  unfold builtin_2c_result
  rw [h, if_pos rfl]

theorem red2c_stArith (g : Nat → Nat → Atom) (op a b : Nat) :
    red_2c g (fun s' a' => reduceGo 26 509 s' a' []) 26 spine3 (.node 2)
        (stArith op a b) =
      replace 26 (((stArith op a b).setArg 1 (.lit a)).setArg 2 (.lit a))
        (.node 2) (g a b) := by
  unfold red_2c
  rw [eval2_stArith op a b, exbind_ok]
  show builtin_2c_result 26 (g a b) spine3 (((stArith op a b).setArg 1 (.lit a)).setArg 2 (.lit a)) = _
  rw [builtin_2c_I 26 (g a b) spine3 (((stArith op a b).setArg 1 (.lit a)).setArg 2 (.lit a)) rfl]
  rfl

theorem fapp_blit (fuel : Nat) (hf : 2 ≤ fuel) (s : SKState) (n la lf : Nat)
    (hrc : s.refcount ((Atom.node n).idx) = 1)
    (harg : s.arg ((Atom.node n).idx) = .lit la)
    (hfn : s.func ((Atom.node n).idx) = .lit lf) :
    free_app_all fuel s (.node n) =
      .ok (true, free_app (s.setRc ((Atom.node n).idx) 0) (.node n)) := by
  rw [fapp_freed fuel (by omega) s n hrc]
  have h1 : (s.setRc ((Atom.node n).idx) 0).arg ((Atom.node n).idx) =
      .lit la := by rw [setRc_arg]; exact harg
  rw [h1, fapp_lit (fuel - 1) (by omega) _ (.lit la) rfl, exbind_ok]
  simp only []
  have h2 : (s.setRc ((Atom.node n).idx) 0).func ((Atom.node n).idx) =
      .lit lf := by rw [setRc_func]; exact hfn
  rw [h2, fapp_lit (fuel - 1) (by omega) _ (.lit lf) rfl, exbind_ok]

theorem fapp_spine (fuel : Nat) (hf : fuel ≠ 0) (s : SKState) (n m la : Nat)
    (r : SKState)
    (hrc : s.refcount ((Atom.node n).idx) = 1)
    (harg : s.arg ((Atom.node n).idx) = .lit la)
    (hfn : s.func ((Atom.node n).idx) = .node m)
    (hrec : free_app_all (fuel - 1) (s.setRc ((Atom.node n).idx) 0)
      (.node m) = .ok (true, r)) :
    free_app_all fuel s (.node n) = .ok (true, free_app r (.node n)) := by
  have hf1 : fuel - 1 ≠ 0 := by
    intro h
    rw [h, free_app_all_zero] at hrec
    cases hrec
  rw [fapp_freed fuel hf s n hrc]
  have h1 : (s.setRc ((Atom.node n).idx) 0).arg ((Atom.node n).idx) =
      .lit la := by rw [setRc_arg]; exact harg
  rw [h1, fapp_lit (fuel - 1) hf1 _ (.lit la) rfl, exbind_ok]
  simp only []
  have h2 : (s.setRc ((Atom.node n).idx) 0).func ((Atom.node n).idx) =
      .node m := by rw [setRc_func]; exact hfn
  rw [h2, hrec, exbind_ok]

theorem replace_stArith (op a b : Nat) (t : Atom) :
    replace 26 (((stArith op a b).setArg 1 (.lit a)).setArg 2 (.lit a))
        (.node 2) t =
      .ok (t, free_app (free_app (free_app ((((((stArith op a b).setArg 1 (.lit a)).setArg 2 (.lit a)).setRc ((Atom.node 2).idx) 0).setRc ((Atom.node 1).idx) 0).setRc ((Atom.node 0).idx) 0) (.node 0)) (.node 1)) (.node 2)) := by
  have h0 : free_app_all 24 (((((stArith op a b).setArg 1 (.lit a)).setArg 2 (.lit a)).setRc ((Atom.node 2).idx) 0).setRc ((Atom.node 1).idx) 0) (.node 0) =
      .ok (true, free_app ((((((stArith op a b).setArg 1 (.lit a)).setArg 2 (.lit a)).setRc ((Atom.node 2).idx) 0).setRc ((Atom.node 1).idx) 0).setRc ((Atom.node 0).idx) 0) (.node 0)) :=
    fapp_blit 24 (by decide) (((((stArith op a b).setArg 1 (.lit a)).setArg 2 (.lit a)).setRc ((Atom.node 2).idx) 0).setRc ((Atom.node 1).idx) 0) 0 LIT_I op rfl rfl rfl
  have h1 : free_app_all 25 ((((stArith op a b).setArg 1 (.lit a)).setArg 2 (.lit a)).setRc ((Atom.node 2).idx) 0) (.node 1) =
      .ok (true, free_app (free_app ((((((stArith op a b).setArg 1 (.lit a)).setArg 2 (.lit a)).setRc ((Atom.node 2).idx) 0).setRc ((Atom.node 1).idx) 0).setRc ((Atom.node 0).idx) 0) (.node 0)) (.node 1)) :=
    fapp_spine 25 (by decide) ((((stArith op a b).setArg 1 (.lit a)).setArg 2 (.lit a)).setRc ((Atom.node 2).idx) 0) 1 0 a _ rfl rfl rfl h0
  have h2 : free_app_all 26 (((stArith op a b).setArg 1 (.lit a)).setArg 2 (.lit a)) (.node 2) =
      .ok (true, free_app (free_app (free_app ((((((stArith op a b).setArg 1 (.lit a)).setArg 2 (.lit a)).setRc ((Atom.node 2).idx) 0).setRc ((Atom.node 1).idx) 0).setRc ((Atom.node 0).idx) 0) (.node 0)) (.node 1)) (.node 2)) :=
    fapp_spine 26 (by decide) (((stArith op a b).setArg 1 (.lit a)).setArg 2 (.lit a)) 2 1 a _ rfl rfl rfl h1
  unfold replace
  rw [h2, exbind_ok]
  rfl

theorem reduce_stArith (g : Nat → Nat → Atom) (op a b v : Nat)
    (hreq : litReqargs op = 3)
    (happly : ∀ rf fl stack curr s,
      applyRuleF rf fl (litSubtype op) stack curr s =
        red_2c g rf fl stack curr s)
    (hg : g a b = .lit v) :
    ∃ s, reduce 30 (stArith op a b) (.node 2) = .ok (.lit v, s) := by
  have hopI : op ≠ LIT_I := by
    intro h
    rw [h] at hreq
    exact absurd hreq (by decide)
  have hne0 : (stArith op a b).func ((Atom.node 0).idx) ≠ Atom.lit LIT_I := by
    intro hc
    have h2 : Atom.lit op = Atom.lit LIT_I := hc
    injection h2 with h3
    exact hopI h3
  have hne2 : (stArith op a b).func ((Atom.node 2).idx) ≠ Atom.lit LIT_I :=
    fun hc => Atom.noConfusion (show Atom.node 1 = Atom.lit LIT_I from hc)
  have hne1 : (stArith op a b).func ((Atom.node 1).idx) ≠ Atom.lit LIT_I :=
    fun hc => Atom.noConfusion (show Atom.node 0 = Atom.lit LIT_I from hc)
  have hrep := replace_stArith op a b (.lit v)
  unfold reduce
  rw [reduceGo_push 30 MAX_STACK (by decide) (stArith op a b) 2 []
    hne2 (by decide)]
  rw [show (stArith op a b).func ((Atom.node 2).idx) = .node 1 from rfl,
    show (30:Nat) - 1 = 29 from rfl]
  rw [reduceGo_push 29 MAX_STACK (by decide) (stArith op a b) 1 [.node 2]
    hne1 (by decide)]
  rw [show (stArith op a b).func ((Atom.node 1).idx) = .node 0 from rfl,
    show (29:Nat) - 1 = 28 from rfl]
  rw [reduceGo_push 28 MAX_STACK (by decide) (stArith op a b) 0
    [.node 1, .node 2] hne0 (by decide)]
  rw [show (stArith op a b).func ((Atom.node 0).idx) = .lit op from rfl,
    show (28:Nat) - 1 = 27 from rfl]
  rw [reduceGo_fire 27 MAX_STACK (by decide) (stArith op a b) op
    [.node 0, .node 1, .node 2] (by rw [hreq]; decide) (by rw [hreq]; decide)]
  rw [show (27:Nat) - 1 = 26 from rfl,
    show MAX_STACK - List.length [Atom.node 0, Atom.node 1, Atom.node 2] = 509
      from rfl, hreq]
  rw [show rsTop [Atom.node 0, Atom.node 1, Atom.node 2] ((3:Nat) - 1) =
    Atom.node 2 from rfl]
  rw [show [Atom.node 0, Atom.node 1, Atom.node 2] = spine3 from rfl]
  rw [happly]
  rw [red2c_stArith g op a b, hg, hrep]
  show ∃ s, reduceGo 26 MAX_STACK
      (free_app (free_app (free_app ((((((stArith op a b).setArg 1 (.lit a)).setArg 2 (.lit a)).setRc ((Atom.node 2).idx) 0).setRc ((Atom.node 1).idx) 0).setRc ((Atom.node 0).idx) 0) (.node 0)) (.node 1)) (.node 2)) (.lit v) [] = .ok (.lit v, s)
  exact ⟨_, reduceGo_lit_nil 25 MAX_STACK _ v⟩


/-- C3, amended.  The ternary primitives take their continuation FIRST:
for any raw literals `a` and `b`, reducing `+ I a b` — the application
`(((+ I) a) b)` — yields the literal `(a+b) mod 2^15`, and similarly `-`
(computed on integers, so the residue of a negative difference), `*`, and,
for `b ≠ 0`, `/` (division by zero is undefined behaviour in the C
source). -/
theorem c3_arith_mod (a b : Nat) :
    (∃ s, reduce 30 (stArith LIT_pl a b) (.node 2) =
        .ok (.lit ((a + b) % 0x8000), s)) ∧
    (∃ s, reduce 30 (stArith LIT_mi a b) (.node 2) =
        .ok (.lit ((((a : Int) - (b : Int)) % 0x8000).toNat), s)) ∧
    (∃ s, reduce 30 (stArith LIT_tm a b) (.node 2) =
        .ok (.lit (a * b % 0x8000), s)) ∧
    (b ≠ 0 → ∃ s, reduce 30 (stArith LIT_dv a b) (.node 2) =
        .ok (.lit (a / b % 0x8000), s)) := by
  refine ⟨?_, ?_, ?_, fun _ => ?_⟩
  · exact reduce_stArith (fun o r => Atom.lit ((o + r) % 0x8000)) LIT_pl a b _
      rfl (fun rf fl stack curr s => rfl) rfl
  · exact reduce_stArith
      (fun o r => Atom.lit ((((o : Int) - (r : Int)) % 0x8000).toNat))
      LIT_mi a b _ rfl (fun rf fl stack curr s => rfl) rfl
  · exact reduce_stArith (fun o r => Atom.lit (o * r % 0x8000)) LIT_tm a b _
      rfl (fun rf fl stack curr s => rfl) rfl
  · exact reduce_stArith (fun o r => Atom.lit (o / r % 0x8000)) LIT_dv a b _
      rfl (fun rf fl stack curr s => rfl) rfl

/-- C3, witness: `+ I 3 4` reduces to the literal 7, `/ I 9 2` (with a
nonzero divisor discharged concretely) to the literal 4. -/
theorem c3_witness :
    (∃ s, reduce 30 (stArith LIT_pl 3 4) (.node 2) = .ok (.lit 7, s)) ∧
    (∃ s, reduce 30 (stArith LIT_dv 9 2) (.node 2) = .ok (.lit 4, s)) := by
  constructor
  · obtain ⟨s, hs⟩ := (c3_arith_mod 3 4).1
    exact ⟨s, by rw [hs]⟩
  · obtain ⟨s, hs⟩ := (c3_arith_mod 9 2).2.2.2 (by decide)
    exact ⟨s, by rw [hs]⟩


theorem copy_fst (s : SKState) (a : Atom) : (copy_atom s a).1 = a := by
  unfold copy_atom
  split <;> rfl

theorem copy_func (s : SKState) (a : Atom) :
    (copy_atom s a).2.func = s.func := by
  unfold copy_atom
  split <;> rfl

theorem copy_arg (s : SKState) (a : Atom) :
    (copy_atom s a).2.arg = s.arg := by
  unfold copy_atom
  split <;> rfl

theorem copy_rc_ne (s : SKState) (a : Atom) (i : Nat)
    (h : a.isLit = true ∨ a.idx ≠ i) :
    (copy_atom s a).2.refcount i = s.refcount i := by
  unfold copy_atom
  rcases h with h | h
  · rw [if_pos h]
  · by_cases hl : a.isLit
    · rw [if_pos hl]
    · rw [if_neg hl]
      simp [Ne.symm h]

theorem walkI_term (g : Nat) :
    ∀ (s : SKState) (x t : Atom) (l : List Atom),
      walkI g s x = some (t, l) →
      t.isLit = true ∨ s.func t.idx ≠ Atom.lit LIT_I := by
  induction g with
  | zero =>
    intro s x t l h
    rw [walkI_zero] at h
    cases h
  | succ f ih =>
    intro s x t l h
    rw [walkI_succ] at h
    by_cases hc : (s.arg x.idx).isLit = false ∧
        s.func (s.arg x.idx).idx = Atom.lit LIT_I
    · rw [if_pos hc] at h
      rcases hw : walkI f s (s.arg x.idx) with - | ⟨t', l'⟩
      · rw [hw] at h
        cases h
      · rw [hw] at h
        simp only [Option.map_some'] at h
        injection h with h'
        have h1 : t' = t := congrArg Prod.fst h'
        subst h1
        exact ih s (s.arg x.idx) t' l' hw
    · rw [if_neg hc] at h
      injection h with h'
      have h1 : s.arg x.idx = t := congrArg Prod.fst h'
      subst h1
      by_cases hl : (s.arg x.idx).isLit = true
      · exact Or.inl hl
      · right
        intro hfI
        exact hc ⟨Bool.not_eq_true _ ▸ hl, hfI⟩

theorem walkI_rtg (g : Nat) :
    ∀ (s : SKState) (x t : Atom) (l : List Atom),
      walkI g s x = some (t, l) → x.isLit = false →
      s.func x.idx = Atom.lit LIT_I →
      Relation.ReflTransGen (istep s) x t := by
  induction g with
  | zero =>
    intro s x t l h
    rw [walkI_zero] at h
    cases h
  | succ f ih =>
    intro s x t l h hx hfx
    rw [walkI_succ] at h
    by_cases hc : (s.arg x.idx).isLit = false ∧
        s.func (s.arg x.idx).idx = Atom.lit LIT_I
    · rw [if_pos hc] at h
      rcases hw : walkI f s (s.arg x.idx) with - | ⟨t', l'⟩
      · rw [hw] at h
        cases h
      · rw [hw] at h
        simp only [Option.map_some'] at h
        injection h with h'
        have h1 : t' = t := congrArg Prod.fst h'
        subst h1
        exact Relation.ReflTransGen.head ⟨hx, hfx, rfl⟩
          (ih s (s.arg x.idx) t' l' hw hc.1 hc.2)
    · rw [if_neg hc] at h
      injection h with h'
      have h1 : s.arg x.idx = t := congrArg Prod.fst h'
      subst h1
      exact Relation.ReflTransGen.single ⟨hx, hfx, rfl⟩

theorem walkI_funcs (g : Nat) :
    ∀ (s : SKState) (x t : Atom) (l : List Atom),
      walkI g s x = some (t, l) → x.isLit = false →
      s.func x.idx = Atom.lit LIT_I →
      ∀ c ∈ l, c.isLit = false ∧ s.func c.idx = Atom.lit LIT_I := by
  induction g with
  | zero =>
    intro s x t l h
    rw [walkI_zero] at h
    cases h
  | succ f ih =>
    intro s x t l h hx hfx
    rw [walkI_succ] at h
    by_cases hc : (s.arg x.idx).isLit = false ∧
        s.func (s.arg x.idx).idx = Atom.lit LIT_I
    · rw [if_pos hc] at h
      rcases hw : walkI f s (s.arg x.idx) with - | ⟨t', l'⟩
      · rw [hw] at h
        cases h
      · rw [hw] at h
        simp only [Option.map_some'] at h
        injection h with h'
        have h2 : x :: l' = l := congrArg Prod.snd h'
        subst h2
        intro c hcmem
        rcases List.mem_cons.mp hcmem with rfl | hmem
        · exact ⟨hx, hfx⟩
        · exact ih s (s.arg x.idx) t' l' hw hc.1 hc.2 c hmem
    · rw [if_neg hc] at h
      injection h with h'
      have h2 : [x] = l := congrArg Prod.snd h'
      subst h2
      intro c hcmem
      rcases List.mem_singleton.mp hcmem with rfl
      exact ⟨hx, hfx⟩

theorem walkI_frame (g : Nat) :
    ∀ (s s₁ : SKState) (x t : Atom) (l : List Atom),
      walkI g s x = some (t, l) → s₁.func = s.func →
      (∀ c ∈ l, s₁.arg c.idx = s.arg c.idx) →
      walkI g s₁ x = some (t, l) := by
  induction g with
  | zero =>
    intro s s₁ x t l h
    rw [walkI_zero] at h
    cases h
  | succ f ih =>
    intro s s₁ x t l h hfunc harg
    rw [walkI_succ] at h
    rw [walkI_succ]
    by_cases hc : (s.arg x.idx).isLit = false ∧
        s.func (s.arg x.idx).idx = Atom.lit LIT_I
    · rw [if_pos hc] at h
      rcases hw : walkI f s (s.arg x.idx) with - | ⟨t', l'⟩
      · rw [hw] at h
        cases h
      · rw [hw] at h
        simp only [Option.map_some'] at h
        injection h with h'
        have h2 : x :: l' = l := congrArg Prod.snd h'
        subst h2
        have hax : s₁.arg x.idx = s.arg x.idx :=
          harg x (List.mem_cons_self x l')
        have hc' : (s₁.arg x.idx).isLit = false ∧
            s₁.func (s₁.arg x.idx).idx = Atom.lit LIT_I := by
          rw [hax, hfunc]
          exact hc
        rw [if_pos hc', hax]
        rw [ih s s₁ (s.arg x.idx) t' l' hw hfunc
          (fun c hcm => harg c (List.mem_cons_of_mem x hcm))]
        simp only [Option.map_some']
        exact congrArg some h'
    · rw [if_neg hc] at h
      injection h with h'
      have h2 : [x] = l := congrArg Prod.snd h'
      subst h2
      have hax : s₁.arg x.idx = s.arg x.idx :=
        harg x (List.mem_singleton.mpr rfl)
      have hc' : ¬((s₁.arg x.idx).isLit = false ∧
          s₁.func (s₁.arg x.idx).idx = Atom.lit LIT_I) := by
        rw [hax, hfunc]
        exact hc
      rw [if_neg hc', hax]
      exact congrArg some h'

theorem spliceI_step (fl : Nat) (s s₁ s₂ : SKState) (curr nxt c1 : Atom)
    (hcopy : copy_atom s nxt = (c1, s₁))
    (hfree : free_app_all fl s₁ curr = .ok (false, s₂)) :
    spliceI (fl + 1) s curr nxt =
      (let tmp := s₂.arg curr.idx
       let s₃ := s₂.setArg curr.idx nxt
       if tmp.isLit = false ∧ s₃.func tmp.idx = Atom.lit LIT_I then
         spliceI fl s₃ tmp nxt
       else .ok (tmp, s₃)) := by
  rw [spliceI_succ, hcopy]
  simp only [hfree]


theorem spliceI_chain (g : Nat) :
    ∀ (s : SKState) (x t : Atom) (l : List Atom) (fl : Nat),
      walkI g s x = some (t, l) → x.isLit = false →
      s.func x.idx = Atom.lit LIT_I →
      (l.map Atom.idx).Nodup →
      (∀ c ∈ l, 2 ≤ s.refcount c.idx ∧ s.refcount c.idx < 65536) →
      l.length + 1 ≤ fl →
      ∃ s', spliceI fl s x t = .ok (t, s') ∧
        (∀ c ∈ l, s'.arg c.idx = t) ∧
        s'.func = s.func ∧
        (∀ i, i ∉ l.map Atom.idx → s'.arg i = s.arg i) := by
  induction g with
  | zero =>
    intro s x t l fl h
    rw [walkI_zero] at h
    cases h
  | succ f ih =>
    intro s x t l fl hw hx hfx hnd hrc hfl
    obtain ⟨xn, rfl⟩ : ∃ m, x = Atom.node m := by
      cases x with
      | lit q => cases hx
      | node m => exact ⟨m, rfl⟩
    obtain ⟨fl', rfl⟩ : ∃ fl', fl = fl' + 1 := ⟨fl - 1, by omega⟩
    rw [walkI_succ] at hw
    by_cases hc : (s.arg ((Atom.node xn).idx)).isLit = false ∧
        s.func ((s.arg ((Atom.node xn).idx)).idx) = Atom.lit LIT_I
    · rw [if_pos hc] at hw
      rcases hwi : walkI f s (s.arg ((Atom.node xn).idx)) with - | ⟨t', l'⟩
      · rw [hwi] at hw
        cases hw
      · rw [hwi] at hw
        simp only [Option.map_some'] at hw
        injection hw with hw'
        have h1 : t' = t := congrArg Prod.fst hw'
        subst h1
        have h2 : Atom.node xn :: l' = l := congrArg Prod.snd hw'
        subst h2
        obtain ⟨hxnot, hnd'⟩ : (Atom.node xn).idx ∉ l'.map Atom.idx ∧
            (l'.map Atom.idx).Nodup := by
          rw [List.map_cons, List.nodup_cons] at hnd
          exact hnd
        have hterm := walkI_term f s (s.arg ((Atom.node xn).idx)) t' l' hwi
        have htx : t'.isLit = true ∨ t'.idx ≠ (Atom.node xn).idx := by
          rcases hterm with h | h
          · exact Or.inl h
          · right
            intro he
            rw [he, hfx] at h
            exact h rfl
        rcases hcopy : copy_atom s t' with ⟨c1, s₁⟩
        have hs₁f : s₁.func = s.func := by
          have h := copy_func s t'
          rw [hcopy] at h
          exact h
        have hs₁a : s₁.arg = s.arg := by
          have h := copy_arg s t'
          rw [hcopy] at h
          exact h
        have hs₁rc : ∀ i, t'.isLit = true ∨ t'.idx ≠ i →
            s₁.refcount i = s.refcount i := by
          intro i hi
          have h := copy_rc_ne s t' i hi
          rw [hcopy] at h
          exact h
        have hrcx := hrc (Atom.node xn) (List.mem_cons_self _ _)
        have hrcs₁ : s₁.refcount ((Atom.node xn).idx) =
            s.refcount ((Atom.node xn).idx) := hs₁rc _ htx
        have hfree : free_app_all fl' s₁ (.node xn) =
            .ok (false, s₁.setRc ((Atom.node xn).idx)
              (s₁.refcount ((Atom.node xn).idx) - 1)) :=
          fapp_dec fl' (by simp at hfl; omega) s₁ xn
            (by rw [hrcs₁]; exact hrcx.1) (by rw [hrcs₁]; exact hrcx.2)
        rw [spliceI_step fl' s s₁ _ (Atom.node xn) t' c1 hcopy hfree]
        simp only []
        have htmp : (s₁.setRc ((Atom.node xn).idx)
            (s₁.refcount ((Atom.node xn).idx) - 1)).arg ((Atom.node xn).idx) =
            s.arg ((Atom.node xn).idx) := by
          rw [setRc_arg, hs₁a]
        rw [htmp]
        have hf3 : ((s₁.setRc ((Atom.node xn).idx)
            (s₁.refcount ((Atom.node xn).idx) - 1)).setArg
            ((Atom.node xn).idx) t').func = s.func := by
          rw [setArg_func, setRc_func, hs₁f]
        rw [hf3, if_pos hc]
        have hS₃a_chain : ∀ c ∈ l',
            ((s₁.setRc ((Atom.node xn).idx)
              (s₁.refcount ((Atom.node xn).idx) - 1)).setArg
              ((Atom.node xn).idx) t').arg c.idx = s.arg c.idx := by
          intro c hcm
          have hne : c.idx ≠ (Atom.node xn).idx := by
            intro he
            exact hxnot (he ▸ List.mem_map_of_mem Atom.idx hcm)
          rw [setArg_arg, if_neg hne, setRc_arg, hs₁a]
        have hwalk₃ : walkI f ((s₁.setRc ((Atom.node xn).idx)
            (s₁.refcount ((Atom.node xn).idx) - 1)).setArg
            ((Atom.node xn).idx) t') (s.arg ((Atom.node xn).idx)) =
            some (t', l') :=
          walkI_frame f s _ _ t' l' hwi hf3 hS₃a_chain
        have hfuncs := walkI_funcs f s (s.arg ((Atom.node xn).idx)) t' l'
          hwi hc.1 hc.2
        have hrc₃ : ∀ c ∈ l',
            2 ≤ ((s₁.setRc ((Atom.node xn).idx)
              (s₁.refcount ((Atom.node xn).idx) - 1)).setArg
              ((Atom.node xn).idx) t').refcount c.idx ∧
            ((s₁.setRc ((Atom.node xn).idx)
              (s₁.refcount ((Atom.node xn).idx) - 1)).setArg
              ((Atom.node xn).idx) t').refcount c.idx < 65536 := by
          intro c hcm
          have hcx : c.idx ≠ (Atom.node xn).idx := by
            intro he
            exact hxnot (he ▸ List.mem_map_of_mem Atom.idx hcm)
          have hct : t'.isLit = true ∨ t'.idx ≠ c.idx := by
            rcases hterm with h | h
            · exact Or.inl h
            · right
              intro he
              exact h (he ▸ (hfuncs c hcm).2)
          rw [setArg_refcount, setRc_refcount, if_neg hcx, hs₁rc c.idx hct]
          exact hrc c (List.mem_cons_of_mem _ hcm)
        have hfl' : l'.length + 1 ≤ fl' := by
          simp only [List.length_cons] at hfl
          omega
        obtain ⟨s'', hsp, hargs, hfunc'', hframe⟩ :=
          ih _ (s.arg ((Atom.node xn).idx)) t' l' fl' hwalk₃ hc.1
            (by rw [hf3]; exact hc.2) hnd' hrc₃ hfl'
        refine ⟨s'', hsp, ?_, ?_, ?_⟩
        · intro c hcm
          rcases List.mem_cons.mp hcm with rfl | hcm'
          · have hfr : s''.arg ((Atom.node xn).idx) =
                ((s₁.setRc ((Atom.node xn).idx)
                  (s₁.refcount ((Atom.node xn).idx) - 1)).setArg
                  ((Atom.node xn).idx) t').arg ((Atom.node xn).idx) :=
              hframe _ hxnot
            rw [hfr, setArg_arg, if_pos rfl]
          · exact hargs c hcm'
        · rw [hfunc'', hf3]
        · intro i hi
          rw [List.map_cons] at hi
          have hi1 : i ≠ (Atom.node xn).idx := by
            intro he
            exact hi (by rw [he]; exact List.mem_cons_self _ _)
          have hi2 : i ∉ l'.map Atom.idx := by
            intro hm
            exact hi (List.mem_cons_of_mem _ hm)
          rw [hframe i hi2, setArg_arg, if_neg hi1, setRc_arg, hs₁a]
    · rw [if_neg hc] at hw
      injection hw with hw'
      have h1 : s.arg ((Atom.node xn).idx) = t := congrArg Prod.fst hw'
      have h2 : [Atom.node xn] = l := congrArg Prod.snd hw'
      subst h2
      have htx : t.isLit = true ∨ t.idx ≠ (Atom.node xn).idx := by
        by_cases hl : t.isLit = true
        · exact Or.inl hl
        · right
          intro he
          apply hc
          constructor
          · rw [h1]
            exact Bool.eq_false_iff.mpr hl
          · rw [h1, he]
            exact hfx
      rcases hcopy : copy_atom s t with ⟨c1, s₁⟩
      have hs₁f : s₁.func = s.func := by
        have h := copy_func s t
        rw [hcopy] at h
        exact h
      have hs₁a : s₁.arg = s.arg := by
        have h := copy_arg s t
        rw [hcopy] at h
        exact h
      have hs₁rc : s₁.refcount ((Atom.node xn).idx) =
          s.refcount ((Atom.node xn).idx) := by
        have h := copy_rc_ne s t ((Atom.node xn).idx) htx
        rw [hcopy] at h
        exact h
      have hrcx := hrc (Atom.node xn) (List.mem_cons_self _ _)
      have hfree : free_app_all fl' s₁ (.node xn) =
          .ok (false, s₁.setRc ((Atom.node xn).idx)
            (s₁.refcount ((Atom.node xn).idx) - 1)) :=
        fapp_dec fl' (by simp at hfl; omega) s₁ xn
          (by rw [hs₁rc]; exact hrcx.1) (by rw [hs₁rc]; exact hrcx.2)
      rw [spliceI_step fl' s s₁ _ (Atom.node xn) t c1 hcopy hfree]
      simp only []
      have htmp : (s₁.setRc ((Atom.node xn).idx)
          (s₁.refcount ((Atom.node xn).idx) - 1)).arg ((Atom.node xn).idx) =
          s.arg ((Atom.node xn).idx) := by
        rw [setRc_arg, hs₁a]
      rw [htmp]
      have hf3 : ((s₁.setRc ((Atom.node xn).idx)
          (s₁.refcount ((Atom.node xn).idx) - 1)).setArg
          ((Atom.node xn).idx) t).func = s.func := by
        rw [setArg_func, setRc_func, hs₁f]
      rw [hf3, if_neg hc, h1]
      refine ⟨_, rfl, ?_, hf3, ?_⟩
      · intro c hcm
        rcases List.mem_singleton.mp hcm with rfl
        rw [setArg_arg, if_pos rfl]
      · intro i hi
        have hi1 : i ≠ (Atom.node xn).idx := by
          intro he
          apply hi
          rw [List.map_cons, he]
          exact List.mem_cons_self _ _
        rw [setArg_arg, if_neg hi1, setRc_arg, hs₁a]



theorem copy_freelist (s : SKState) (a : Atom) :
    (copy_atom s a).2.freelist = s.freelist := by
  unfold copy_atom
  split <;> rfl

theorem copy_currentApps (s : SKState) (a : Atom) :
    (copy_atom s a).2.currentApps = s.currentApps := by
  unfold copy_atom
  split <;> rfl

theorem copy_output (s : SKState) (a : Atom) :
    (copy_atom s a).2.output = s.output := by
  unfold copy_atom
  split <;> rfl

theorem copy_input (s : SKState) (a : Atom) :
    (copy_atom s a).2.input = s.input := by
  unfold copy_atom
  split <;> rfl

theorem copy_refcount (s : SKState) (a : Atom) (i : Nat) :
    (copy_atom s a).2.refcount i =
      if a.isLit = false ∧ a.idx = i then (s.refcount i + 1) % 65536
      else s.refcount i := by
  unfold copy_atom
  by_cases h : a.isLit
  · rw [if_pos h]
    simp [h]
  · rw [if_neg h]
    by_cases hi : a.idx = i
    · simp [setRc_refcount, Bool.eq_false_iff.mpr h, hi]
    · have hi' : ¬i = a.idx := fun he => hi (Eq.symm he)
      simp [setRc_refcount, hi, hi']

/-- C7: for every saturated S-redex — any state, any spine, any argument
atoms — the rule pops three fresh nodes `m1`, `m2`, `m3` off the free-list
and hands `replace` the node `m3 = ((f x) (g x))`: node `m1 = (f x)`, node
`m2 = (g x)`, each fresh node has refcount 1, `f` is the arg of
`rs_top_ptr[0]` (the first argument), `g` of `rs_top_ptr[1]` (the second),
`x` of `curr` (the third, used twice), and the children are retained —
node-valued `f` and `g` each gain one reference and node-valued `x` gains
two (mod 2^16), while every other node's fields are untouched.  The
hypotheses only name the free-list shape and the freshness of the popped
nodes (live args never point at free nodes). -/
theorem c7_fusion_rule (fuel : Nat) (stack : List Atom) (curr : Atom)
    (s : SKState) (f g x : Atom) (m1 m2 m3 : Nat)
    (hfa : s.arg ((rsTop stack 0).idx) = f)
    (hga : s.arg ((rsTop stack 1).idx) = g)
    (hxa : s.arg curr.idx = x)
    (hfl1 : s.freelist = .node m1)
    (hfn1 : s.func ((Atom.node m1).idx) = .node m2)
    (hfn2 : s.func ((Atom.node m2).idx) = .node m3)
    (hm1 : m1 ≠ MAX_APPS) (hm2 : m2 ≠ MAX_APPS) (hm3 : m3 ≠ MAX_APPS)
    (hd12 : (Atom.node m1).idx ≠ (Atom.node m2).idx)
    (hd13 : (Atom.node m1).idx ≠ (Atom.node m3).idx)
    (hd23 : (Atom.node m2).idx ≠ (Atom.node m3).idx)
    (hr1 : (rsTop stack 1).idx ≠ (Atom.node m1).idx)
    (hcu : curr.idx ≠ (Atom.node m1).idx)
    (hg1 : g.isLit = true ∨ g.idx ≠ (Atom.node m1).idx)
    (hx1 : x.isLit = true ∨ x.idx ≠ (Atom.node m1).idx) :
    ∃ s₇, red_fusion fuel stack curr s = replace fuel s₇ curr (.node m3) ∧
      s₇.func ((Atom.node m1).idx) = f ∧ s₇.arg ((Atom.node m1).idx) = x ∧
      s₇.func ((Atom.node m2).idx) = g ∧ s₇.arg ((Atom.node m2).idx) = x ∧
      s₇.func ((Atom.node m3).idx) = .node m1 ∧
      s₇.arg ((Atom.node m3).idx) = .node m2 ∧
      s₇.refcount ((Atom.node m1).idx) = 1 ∧
      s₇.refcount ((Atom.node m2).idx) = 1 ∧
      s₇.refcount ((Atom.node m3).idx) = 1 ∧
      s₇.currentApps = s.currentApps + 3 ∧
      s₇.freelist = s.func ((Atom.node m3).idx) ∧
      s₇.output = s.output ∧
      (∀ i, i ≠ (Atom.node m1).idx → i ≠ (Atom.node m2).idx →
        i ≠ (Atom.node m3).idx → s₇.func i = s.func i ∧ s₇.arg i = s.arg i) ∧
      (∀ i, i ≠ (Atom.node m1).idx → i ≠ (Atom.node m2).idx →
        i ≠ (Atom.node m3).idx →
        s₇.refcount i =
          if (f.isLit = false ∧ f.idx = i) ∨ (g.isLit = false ∧ g.idx = i) ∨
              (x.isLit = false ∧ x.idx = i) then
            (s.refcount i + (if f.isLit = false ∧ f.idx = i then 1 else 0)
              + (if g.isLit = false ∧ g.idx = i then 1 else 0)
              + (if x.isLit = false ∧ x.idx = i then 2 else 0)) % 65536
          else s.refcount i) := by
  have hd21 := Ne.symm hd12
  have hd31 := Ne.symm hd13
  have hd32 := Ne.symm hd23
  have hgx1 : ¬(g.isLit = false ∧ g.idx = (Atom.node m1).idx) := by
    rcases hg1 with h | h
    · simp [h]
    · exact fun hcon => h hcon.2
  have hxx1 : ¬(x.isLit = false ∧ x.idx = (Atom.node m1).idx) := by
    rcases hx1 with h | h
    · simp [h]
    · exact fun hcon => h hcon.2
  simp only [idx_node] at hd12 hd13 hd23 hd21 hd31 hd32 hr1 hcu hgx1 hxx1 hfn1 hfn2
  unfold red_fusion
  simp only [idx_node, hfa, copy_fst, copy_func, copy_arg, copy_freelist,
    copy_refcount, copy_currentApps, copy_output, copy_input, hxa, hga, hfl1,
    hfn1, hfn2, alloc_ok, exbind_ok, hr1, hcu, hd21, hd31, hd32, ne_eq,
    Atom.node.injEq, hm1, hm2, hm3, if_true, if_false, ite_true, ite_false,
    ite_self, not_false_eq_true, reduceCtorEq]
  refine ⟨_, rfl, ?_, ?_, ?_, ?_, ?_, ?_, ?_, ?_, ?_, ?_, ?_, ?_, ?_, ?_⟩
  · simp [hd13, hd12]
  · simp [hd13, hd12]
  · simp [hd23]
  · simp [hd23]
  · simp
  · simp
  · simp [hd13, hd12, hgx1, hxx1]
  · simp [hd23]
  · simp
  · simp only [copy_currentApps]
  · simp [hd32, hd31]
  · simp
  · intro i hi1 hi2 hi3
    constructor
    · simp [hi1, hi2, hi3]
    · simp [hi1, hi2, hi3]
  · intro i hi1 hi2 hi3
    simp only [hi1, hi2, hi3, if_false, ite_false]
    by_cases hbf : f.isLit = false ∧ f.idx = i <;>
      by_cases hbg : g.isLit = false ∧ g.idx = i <;>
        by_cases hbx : x.isLit = false ∧ x.idx = i <;>
          simp [hbf, hbg, hbx, hi1, hi2, hi3]


/-- C7, witness: the general S-rule theorem applied to the saturated redex
`(((S (K 7)) (K 8)) (K 9))` whose three arguments are the nodes 3, 4, 5 and
whose free nodes are 6, 7, 8: the rule builds node 6 = `(f x)`, node 7 =
`(g x)`, node 8 = `((f x) (g x))` and hands `replace` the root node 8; the
retained `f` and `g` (nodes 3, 4) end with refcount 2 and the twice-retained
`x` (node 5) with refcount 3. -/
theorem c7_witness :
    ∃ s₇, red_fusion 20 spine3 (.node 2) stFusionN =
        replace 20 s₇ (.node 2) (.node 8) ∧
      s₇.func ((Atom.node 6).idx) = .node 3 ∧
      s₇.arg ((Atom.node 6).idx) = .node 5 ∧
      s₇.func ((Atom.node 7).idx) = .node 4 ∧
      s₇.arg ((Atom.node 7).idx) = .node 5 ∧
      s₇.func ((Atom.node 8).idx) = .node 6 ∧
      s₇.arg ((Atom.node 8).idx) = .node 7 ∧
      s₇.refcount ((Atom.node 6).idx) = 1 ∧
      s₇.refcount ((Atom.node 7).idx) = 1 ∧
      s₇.refcount ((Atom.node 8).idx) = 1 ∧
      s₇.refcount ((Atom.node 3).idx) = 2 ∧
      s₇.refcount ((Atom.node 4).idx) = 2 ∧
      s₇.refcount ((Atom.node 5).idx) = 3 := by
  obtain ⟨s₇, heq, h1, h2, h3, h4, h5, h6, h7, h8, h9, -, -, -, -, hrc⟩ :=
    c7_fusion_rule 20 spine3 (.node 2) stFusionN (.node 3) (.node 4) (.node 5)
      6 7 8 rfl rfl rfl rfl rfl rfl (by decide) (by decide) (by decide)
      (by decide) (by decide) (by decide) (by decide) (by decide)
      (by decide) (by decide)
  refine ⟨s₇, heq, h1, h2, h3, h4, h5, h6, h7, h8, h9, ?_, ?_, ?_⟩
  · have h := hrc (Atom.node 3).idx (by decide) (by decide) (by decide)
    rw [h]
    decide
  · have h := hrc (Atom.node 4).idx (by decide) (by decide) (by decide)
    rw [h]
    decide
  · have h := hrc (Atom.node 5).idx (by decide) (by decide) (by decide)
    rw [h]
    decide


theorem spliceI_freed (fl : Nat) (s s₁ s₂ : SKState) (curr nxt c1 : Atom)
    (hcopy : copy_atom s nxt = (c1, s₁))
    (hfree : free_app_all fl s₁ curr = .ok (true, s₂)) :
    spliceI (fl + 1) s curr nxt = .ok (nxt, s₂) := by
  rw [spliceI_succ, hcopy]
  simp only [hfree]

/-- C8, counterexample.  The original claim says every visited indirection
is spliced to the terminal atom.  On the chain `node 0 = (I node1)` with
refcount 1, `node 1 = (I 99)` with refcount 2, the walk visits nodes 0 and
1 and terminates at the literal 99 — but the walk-back *frees* node 0 (its
single reference is consumed): the splice returns the terminal with node 0
on the free-list, refcount 0, its `arg` still the stale `node 1`, never
repointed to 99. -/
theorem c8_counterexample :
    walkI 3 stChain1 (.node 0) = some (.lit 99, [.node 0, .node 1]) ∧
    (spliceI 3 stChain1 (.node 0) (.lit 99)).toOption.map
        (fun p => (p.1, p.2.arg 0, p.2.refcount 0, p.2.freelist,
          p.2.currentApps)) =
      some (.lit 99, .node 1, 0, .node 0, 1) ∧
    (spliceI 3 stChain1 (.node 0) (.lit 99)).toOption.map
        (fun p => p.2.arg 0) ≠ some (.lit 99) := by
  refine ⟨by decide, by decide, by decide⟩

/-- C8, amended.  The I-chain short-circuit is semantically equivalent to
repeatedly rewriting `(I x)` to `x`, but a visited indirection is *spliced*
to the terminal only while it stays referenced: for a terminating walk
(`hw`, visiting the non-aliased indirection list `l`), (1) the terminal is
a literal or a non-I-rooted node; (2) it is reachable from the head by the
pure rewrite `(I x) → x`; (3) when releasing a visited node frees it (its
reference count dropped to zero) the walk-back stops and returns the
terminal — the node is destroyed, not spliced; (4) otherwise the node's
`arg` is repointed to the terminal and the walk-back continues along the
old `arg`; (5) in particular on the head node the freed case still hands
the outer loop the terminal; and (6) when every visited indirection is
still shared (refcount ≥ 2) the splice repoints them all to the terminal
and the loop continues there. -/
theorem c8_ichain_splice (fuel cap : Nat) (s : SKState) (n : Nat) (t : Atom)
    (l : List Atom)
    (hfc : s.func ((Atom.node n).idx) = .lit LIT_I)
    (hw : walkI fuel s (.node n) = some (t, l))
    (hnd : (l.map Atom.idx).Nodup)
    (hfl : l.length + 1 ≤ fuel) :
    (t.isLit = true ∨ s.func t.idx ≠ Atom.lit LIT_I) ∧
    Relation.ReflTransGen (istep s) (.node n) t ∧
    (∀ (fl : Nat) (s₀ : SKState) (x u : Atom) (s₂ : SKState),
      free_app_all fl (copy_atom s₀ u).2 x = .ok (true, s₂) →
      spliceI (fl + 1) s₀ x u = .ok (u, s₂)) ∧
    (∀ (fl : Nat) (s₀ : SKState) (x u : Atom) (s₂ : SKState),
      free_app_all fl (copy_atom s₀ u).2 x = .ok (false, s₂) →
      spliceI (fl + 1) s₀ x u =
        (let tmp := s₂.arg x.idx
         let s₃ := s₂.setArg x.idx u
         if tmp.isLit = false ∧ s₃.func tmp.idx = Atom.lit LIT_I then
           spliceI fl s₃ tmp u
         else .ok (tmp, s₃))) ∧
    (∀ s₂, free_app_all (fuel - 1) (copy_atom s t).2 (.node n) =
        .ok (true, s₂) →
      spliceI fuel s (.node n) t = .ok (t, s₂) ∧
      reduceGo (fuel + 1) cap s (.node n) [] = reduceGo fuel cap s₂ t []) ∧
    ((∀ c ∈ l, 2 ≤ s.refcount c.idx ∧ s.refcount c.idx < 65536) →
      ∃ s', spliceI fuel s (.node n) t = .ok (t, s') ∧
        (∀ c ∈ l, s'.arg c.idx = t) ∧
        reduceGo (fuel + 1) cap s (.node n) [] = reduceGo fuel cap s' t []) := by
  obtain ⟨fu, rfl⟩ : ∃ fu, fuel = fu + 1 := ⟨fuel - 1, by omega⟩
  refine ⟨walkI_term (fu + 1) s (.node n) t l hw,
    walkI_rtg (fu + 1) s (.node n) t l hw rfl hfc,
    fun fl s₀ x u s₂ h => spliceI_freed fl s₀ _ s₂ x u _ rfl h,
    fun fl s₀ x u s₂ h => spliceI_step fl s₀ _ s₂ x u _ rfl h, ?_, ?_⟩
  · intro s₂ h
    simp only [Nat.add_sub_cancel] at h
    have hsp : spliceI (fu + 1) s (.node n) t = .ok (t, s₂) :=
      spliceI_freed fu s _ s₂ (.node n) t _ rfl h
    refine ⟨hsp, ?_⟩
    rw [reduceGo_ichain (fu + 1 + 1) cap (by omega) s n [] hfc]
    simp only [Nat.add_sub_cancel]
    rw [hw]
    simp only []
    rw [hsp]
  · intro hrc
    obtain ⟨s', h1, h2, h3, h4⟩ :=
      spliceI_chain (fu + 1) s (.node n) t l (fu + 1) hw rfl hfc hnd hrc hfl
    refine ⟨s', h1, h2, ?_⟩
    rw [reduceGo_ichain (fu + 1 + 1) cap (by omega) s n [] hfc]
    simp only [Nat.add_sub_cancel]
    rw [hw]
    simp only []
    rw [h1]

/-- C8, witness: on the chain `node 0 = (I node1)` (refcount 1),
`node 1 = (I 99)` (refcount 2) the release of the head frees it, yet the
splice still returns the literal terminal 99 and the outer loop continues
there. -/
theorem c8_witness :
    ∃ s₂, spliceI 3 stChain1 (.node 0) (.lit 99) = .ok (.lit 99, s₂) ∧
      reduceGo 4 512 stChain1 (.node 0) [] =
        reduceGo 3 512 s₂ (.lit 99) [] := by
  obtain ⟨-, -, -, -, h5, -⟩ :=
    c8_ichain_splice 3 512 stChain1 0 (.lit 99) [.node 0, .node 1] rfl rfl
      (by decide) (by decide)
  obtain ⟨s₂, hs₂⟩ : ∃ s₂, free_app_all 2 (copy_atom stChain1 (.lit 99)).2
      (.node 0) = .ok (true, s₂) := ⟨_, rfl⟩
  obtain ⟨h1, h2⟩ := h5 s₂ hs₂
  exact ⟨s₂, h1, h2⟩

end MiniSK
